import Mathlib

/-!
# FlowPitch deck viewer (src/app.js): a shallow embedding

The DOM tree that `createSlide` builds is embedded as typed records, the
closure variable `i` behind `pushAnim` as an explicitly threaded counter, and
the module-level variables `slides`, `currentIndex`, `io` as one record that
every handler takes and returns.
-/

namespace FlowPitch

/-! ## Content model -/

/-- One column of a content-model slide entry (`s.left`, `s.right`). -/
structure ColumnSpec where
  title : Option String
  bullets : Option (List String)
deriving DecidableEq, Repr

/-- One entry of `data.slides`. An absent field is `none`. -/
structure SlideSpec where
  type : Option String
  headline : Option String
  subheadline : Option String
  bullets : Option (List String)
  left : Option ColumnSpec
  right : Option ColumnSpec
deriving DecidableEq, Repr

/-- JavaScript truthiness of an optional string: present and not empty. -/
def truthy : Option String → Bool
  | some t => t != ""
  | none => false

/-! ## Built tree -/

/-- A leaf element made by `document.createElement`: its tag, class name, text
and, once `pushAnim` ran on it, the value of its `--i` property. -/
structure El where
  tag : String
  className : String
  textContent : String
  animate : Option Nat
deriving DecidableEq, Repr

/-- The `ul.bullets` element with its `li` children. -/
structure Bullets where
  items : List El
deriving DecidableEq, Repr

/-- The `div.stack` element of one column. -/
structure Column where
  kicker : Option El
  bullets : Option Bullets
deriving DecidableEq, Repr

/-- What `createSlide` appends to the frame after the heading group. -/
inductive Content where
  | empty
  | cols (left right : Option Column)
  | bullets (ul : Bullets)
deriving DecidableEq, Repr

/-- The `section.slide` element: its class name, the children of the heading
group when the group was appended to the frame, and the content block. The
constant `div.window-dots` child of the frame is left implicit. -/
structure Section where
  className : String
  hgroup : Option (List El)
  content : Content
deriving DecidableEq, Repr

/-! ## Slide builder -/

/-- The closure `pushAnim` of `createSlide`: sets `--i` to the counter and
increments the counter (`String(i++)`). -/
def pushAnim (el : El) (i : Nat) : El × Nat :=
  ({ el with animate := some i }, i + 1)

/-- The `forEach` of `buildBullets`: one `li` per entry, each passed to
`pushAnim`. -/
def bulletItems : List String → Nat → List El × Nat
  | [], i => ([], i)
  | b :: rest, i =>
    let li := pushAnim ⟨"li", "", b, none⟩ i
    let tl := bulletItems rest li.2
    (li.1 :: tl.1, tl.2)

/-- Source `buildBullets(list, pushAnim)`: `list.slice(0, 6).forEach(...)`. -/
def buildBullets (list : List String) (i : Nat) : Bullets × Nat :=
  let r := bulletItems (list.take 6) i
  (⟨r.1⟩, r.2)

/-- Source `buildColumn(col, pushAnim)`. -/
def buildColumn (col : ColumnSpec) (i : Nat) : Column × Nat :=
  let t : Option El × Nat :=
    if truthy col.title then
      let r := pushAnim ⟨"div", "kicker", col.title.getD "", none⟩ i
      (some r.1, r.2)
    else (none, i)
  match col.bullets with
  | some l =>
    let r := buildBullets l t.2
    (⟨t.1, some r.1⟩, r.2)
  | none => (⟨t.1, none⟩, t.2)

/-- A column that is present is built, an absent one is skipped
(`if(s.left){ cols.appendChild(buildColumn(s.left, pushAnim)); }`). -/
def buildColumn? (col : Option ColumnSpec) (i : Nat) : Option Column × Nat :=
  match col with
  | some c => let r := buildColumn c i; (some r.1, r.2)
  | none => (none, i)

/-- The heading and subheading of `createSlide`, with the tag and class names
of the branch taken for `type`. -/
def buildHGroup (type : String) (s : SlideSpec) (i : Nat) : List El × Nat :=
  let big := type == "title" || type == "closing"
  let h : List El × Nat :=
    if truthy s.headline then
      let r := pushAnim
        ⟨if big then "h1" else "h2", if big then "title grad" else "h2 grad",
          s.headline.getD "", none⟩ i
      ([r.1], r.2)
    else ([], i)
  if truthy s.subheadline then
    let r := pushAnim ⟨"p", if big then "sub" else "h3", s.subheadline.getD "", none⟩ h.2
    (h.1 ++ [r.1], r.2)
  else h

/-- The content block of `createSlide`:
`if(s.left || s.right){...} else if(Array.isArray(s.bullets)){...}`. -/
def buildContent (s : SlideSpec) (i : Nat) : Content × Nat :=
  if s.left.isSome || s.right.isSome then
    let l := buildColumn? s.left i
    let r := buildColumn? s.right l.2
    (Content.cols l.1 r.1, r.2)
  else
    match s.bullets with
    | some list => let r := buildBullets list i; (Content.bullets r.1, r.2)
    | none => (Content.empty, i)

/-- Source `createSlide(s, idx)`. The counter starts at 0 (`let i = 0`). The
heading group is appended to the frame always for the types `title`, `closing`
and `section`, and only when it has children otherwise. -/
def createSlide (s : SlideSpec) (_idx : Nat) : Section :=
  let type := if truthy s.type then s.type.getD "" else "content"
  let hg := buildHGroup type s 0
  let fixed := type == "title" || type == "closing" || type == "section"
  let c := buildContent s hg.2
  { className := "slide type-" ++ type
    hgroup := if fixed || !hg.1.isEmpty then some hg.1 else none
    content := c.1 }

/-! ## Reading a built tree -/

/-- The leaf elements of a column in document order. -/
def Column.els (c : Column) : List El :=
  c.kicker.toList ++ (c.bullets.map (·.items)).getD []

/-- The leaf elements of a content block in document order. -/
def Content.els : Content → List El
  | .empty => []
  | .cols l r => (l.map Column.els).getD [] ++ (r.map Column.els).getD []
  | .bullets ul => ul.items

/-- The leaf elements of a slide in document order. -/
def Section.els (sec : Section) : List El :=
  sec.hgroup.getD [] ++ sec.content.els

/-- Whether the content block is a flat bullet list. -/
def Content.isFlatBullets : Content → Bool
  | .bullets _ => true
  | _ => false

/-- Whether the content block is a two-column block. -/
def Content.isCols : Content → Bool
  | .cols _ _ => true
  | _ => false

/-! ## JavaScript numbers

`updateProgress` computes `((currentIndex + 1) / slides.length) * 100` on
JavaScript numbers, which are IEEE 754 binary64 values. A finite binary64 value
is `(-1)^neg * mant * 2^exp`; division and multiplication return the exact
result rounded to 53 significant bits, ties to even. The exponent is not
bounded here: the operands the code has are an index and an array length
(below 2^32), for which no result leaves the normal range of binary64. -/

/-- A finite binary64 value `(-1)^neg * mant * 2^exp`. -/
structure Dbl where
  neg : Bool
  mant : Nat
  exp : Int
deriving DecidableEq, Repr

/-- The rational number a binary64 value stands for. -/
def Dbl.toRat (x : Dbl) : ℚ := (if x.neg then -1 else 1) * (x.mant : ℚ) * (2 : ℚ) ^ x.exp

/-- The position of the leading bit of `n`, with `fuel` halvings allowed. -/
def log2Fuel : Nat → Nat → Nat
  | 0, _ => 0
  | fuel + 1, n => if n < 2 then 0 else log2Fuel fuel (n / 2) + 1

/-- The position of the leading bit of `n`: `2^(log2 n) <= n < 2^(log2 n + 1)`
for `n > 0`. -/
def log2 (n : Nat) : Nat := log2Fuel n n

/-- The power of two by which `d` is scaled so that `n * 2^(log2 d + 53)`
divided by the scaled `d` has exactly 53 bits. -/
def roundUp (n d : Nat) : Nat :=
  if d * 2 ^ log2 n ≤ n * 2 ^ log2 d then log2 n + 1 else log2 n

/-- The quotient `N / D` rounded to the nearest integer, a tie going to the
even one. -/
def roundDiv (N D : Nat) : Nat :=
  let m := N / D
  let r := N % D
  if D < 2 * r ∨ (2 * r = D ∧ m % 2 = 1) then m + 1 else m

/-- The 53-bit significand of `n / d` after rounding. -/
def roundMant (n d : Nat) : Nat :=
  roundDiv (n * 2 ^ (log2 d + 53)) (d * 2 ^ roundUp n d)

/-- The ratio `n / d` (with `d > 0`) rounded to binary64: the significand and
the exponent. A significand that rounds up to `2^53` is renormalised. -/
def roundRatio (n d : Nat) : Nat × Int :=
  if n = 0 then (0, 0)
  else
    let e : Int := (roundUp n d : Int) - ((log2 d : Int) + 53)
    if roundMant n d = 2 ^ 53 then (2 ^ 52, e + 1) else (roundMant n d, e)

/-- The JavaScript quotient `a / b` of an integer by a positive integer. The
divisor is positive wherever the code divides: `updateProgress` returns before
the division when `slides.length` is 0. -/
def fdiv (a : Int) (b : Nat) : Dbl :=
  let r := roundRatio a.natAbs b
  ⟨decide (a < 0), r.1, r.2⟩

/-- The JavaScript product `x * c` of a binary64 value by a positive integer
constant. -/
def fmul (x : Dbl) (c : Nat) : Dbl :=
  let r := roundRatio (x.mant * c * 2 ^ x.exp.toNat) (2 ^ (-x.exp).toNat)
  ⟨x.neg, r.1, r.2⟩

/-! ## Deck session -/

/-- A slide unit held in `slides`: the `section` element object. `ref` is the
identity of the object (what `indexOf` compares), `isActive` whether its class
list holds `is-active`. -/
structure SlideEl where
  ref : Nat
  sec : Section
  isActive : Bool
deriving DecidableEq, Repr

/-- The host document: whether `qs('#deck')` and `qs('#progressBar')` find an
element. -/
structure Page where
  hasDeck : Bool
  hasBar : Bool
deriving DecidableEq, Repr

/-- The content of `.stage-holder`: a copy of a slide and whether the copy
carries `is-active`. -/
structure Staged where
  sec : Section
  isActive : Bool
deriving DecidableEq, Repr

/-- The off-screen `#pdfStage` element. The cloned background layer is left
implicit. -/
structure Stage where
  holder : Option Staged
deriving DecidableEq, Repr

/-- The module-level variables `slides`, `currentIndex`, `io` and the parts of
the document and of `window` that the handlers write. `observers` holds every
`IntersectionObserver` made so far, each as the list of targets it still
watches (an observer that was replaced stays alive in the browser and would
keep reporting unless it is disconnected); `io` is the position in `observers`
of the observer the variable `io` refers to. `barHeight` is the percentage
written to the progress bar; `scrolledTo` is the unit last passed to
`scrollIntoView`; `nextRef` is the identity the next created element gets. -/
structure Session where
  slides : List SlideEl
  currentIndex : Int
  observers : List (List Nat)
  io : Option Nat
  barHeight : Option Dbl
  scrolledTo : Option Nat
  nextRef : Nat
  exportingPdf : Bool
  btnDisabled : Bool
  pdfStage : Option Stage
  html2canvas : Bool
  jsPDF : Bool

/-- The state when the script starts: `slides = []`, `currentIndex = 0`,
`io = null`, no library loaded. -/
def Session.init : Session :=
  { slides := [], currentIndex := 0, observers := [], io := none, barHeight := none,
    scrolledTo := none,
    nextRef := 0, exportingPdf := false, btnDisabled := false, pdfStage := none,
    html2canvas := false, jsPDF := false }

/-- The deck description. Only `data.slides` is embedded; the theme class and
the title that `renderDeck` also sets touch neither `slides` nor
`currentIndex`. -/
structure Deck where
  slides : Option (List SlideSpec)
deriving DecidableEq, Repr

/-- Source `updateProgress()`: `pct` is the binary64 product by 100 of the
binary64 quotient of `currentIndex + 1` by `slides.length`. -/
def updateProgress (pg : Page) (s : Session) : Session :=
  if !pg.hasBar || s.slides.length = 0 then s
  else
    let pct : Dbl := fmul (fdiv (s.currentIndex + 1) s.slides.length) 100
    { s with barHeight := some pct }

/-- The `map` of `renderDeck`: `createSlide(s, idx)` for each entry, each call
making a new element object. -/
def createSlides (base : Nat) : List SlideSpec → Nat → List SlideEl
  | [], _ => []
  | sp :: rest, idx => ⟨base + idx, createSlide sp idx, false⟩ :: createSlides base rest (idx + 1)

/-- The conversion `Boolean(x)` on a slide element: an object is truthy. -/
def SlideEl.toBoolean (_u : SlideEl) : Bool := true

/-- The statement `if(slides[0]) slides[0].classList.add('is-active')`. -/
def activateFirst : List SlideEl → List SlideEl
  | [] => []
  | u :: rest => { u with isActive := true } :: rest

/-- Source `renderDeck(data)`. -/
def renderDeck (pg : Page) (data : Deck) (s : Session) : Session :=
  if !pg.hasDeck then s
  else
    let entries := data.slides.getD []
    let built := (createSlides s.nextRef entries 0).filter SlideEl.toBoolean
    updateProgress pg
      { s with slides := activateFirst built, currentIndex := 0,
               nextRef := s.nextRef + entries.length }

/-- Source `slides.indexOf(target)`: the first position holding the object, or
-1. -/
def indexOf : List SlideEl → Nat → Int
  | [], _ => -1
  | u :: rest, t =>
    if u.ref = t then 0
    else
      let r := indexOf rest t
      if r < 0 then -1 else r + 1

/-- The effect of `target.classList.add('is-active')` on the list: the object
with that identity, when it is in the list, becomes active. -/
def addActive (t : Nat) (l : List SlideEl) : List SlideEl :=
  l.map fun u => if u.ref = t then { u with isActive := true } else u

/-- One entry handed to the observer callback. -/
structure Entry where
  target : Nat
  isIntersecting : Bool
deriving DecidableEq, Repr

/-- The body of the `entries.forEach` of the observer callback, for one
entry. -/
def onEntry (pg : Page) (s : Session) (ent : Entry) : Session :=
  if ent.isIntersecting then
    updateProgress pg
      { s with slides := addActive ent.target s.slides,
               currentIndex := indexOf s.slides ent.target }
  else s

/-- The observer callback of `setupObserver`. -/
def onIntersect (pg : Page) (s : Session) (entries : List Entry) : Session :=
  entries.foldl (onEntry pg) s

/-- The call `io.disconnect()`: the observer at position `h` stops watching
all its targets. -/
def disconnect (h : Nat) (observers : List (List Nat)) : List (List Nat) :=
  observers.set h []

/-- Source `setupObserver()`: `if(io) io.disconnect()`, then, when the deck
container exists, `io` becomes a new observer that watches every element of
`slides`. -/
def setupObserver (pg : Page) (s : Session) : Session :=
  let obs1 := match s.io with
    | some h => disconnect h s.observers
    | none => s.observers
  if !pg.hasDeck then { s with observers := obs1 }
  else { s with observers := obs1 ++ [s.slides.map (·.ref)], io := some obs1.length }

/-- Source `loadContent()`; `res` is the parsed response, `none` when the
fetch or the parse failed. The call `setupPdfExport()` only installs the click
handler, which is `exportPdf` below. -/
def loadContent (pg : Page) (res : Option Deck) (s : Session) : Session :=
  if !pg.hasDeck then s
  else
    match res with
    | some data => setupObserver pg (renderDeck pg data s)
    | none => s

/-- Source `goTo(i)`. -/
def goTo (pg : Page) (s : Session) (i : Int) : Session :=
  if s.slides.length = 0 then s
  else if !pg.hasDeck then s
  else
    let clamped : Int := max 0 (min i (s.slides.length - 1))
    match s.slides[clamped.toNat]? with
    | some target => { s with scrolledTo := some target.ref }
    | none => s

/-- Source `next()`. -/
def next (pg : Page) (s : Session) : Session := goTo pg s (s.currentIndex + 1)

/-- Source `prev()`. -/
def prev (pg : Page) (s : Session) : Session := goTo pg s (s.currentIndex - 1)

/-! ## PDF export -/

/-- The jsPDF document (an external library): the finished pages and the
current page, each the list of images drawn on it. Its page list is
`done ++ [current]`. -/
structure Pdf (Img : Type) where
  done : List (List Img)
  current : List Img

/-- A document made by `new jsPDF(...)`: it starts with one empty page, which
is why the loop adds a page only for `i > 0`. -/
def Pdf.new {Img : Type} : Pdf Img := ⟨[], []⟩

/-- The library call `pdf.addPage(...)`: appends an empty page and makes it
the current one. -/
def Pdf.addPage {Img : Type} (p : Pdf Img) : Pdf Img := ⟨p.done ++ [p.current], []⟩

/-- The library call `pdf.addImage(...)`: draws on the current page. -/
def Pdf.addImage {Img : Type} (p : Pdf Img) (img : Img) : Pdf Img :=
  ⟨p.done, p.current ++ [img]⟩

/-- The pages of the document in order. -/
def Pdf.pages {Img : Type} (p : Pdf Img) : List (List Img) := p.done ++ [p.current]

/-- The network as seen by `loadScript`: whether the script at `src` loads
(`onload` rather than `onerror`) and whether, once loaded, it defines its
global. -/
structure Network where
  loads : String → Bool
  defines : String → Bool

/-- The address `ensureLibs` loads html2canvas from. -/
def h2cSrc : String := "https://cdnjs.cloudflare.com/ajax/libs/html2canvas/1.4.1/html2canvas.min.js"

/-- The address `ensureLibs` loads jsPDF from. -/
def pdfSrc : String := "https://cdnjs.cloudflare.com/ajax/libs/jspdf/2.5.1/jspdf.umd.min.js"

/-- Source `ensureLibs()`: each missing library is loaded; the result is
`false` when a load was rejected. A script that loads defines its global even
if the other load is rejected. -/
def ensureLibs (net : Network) (s : Session) : Bool × Session :=
  let needH2C := !s.html2canvas
  let needPDF := !s.jsPDF
  if !needH2C && !needPDF then (true, s)
  else
    let okH := !needH2C || net.loads h2cSrc
    let okP := !needPDF || net.loads pdfSrc
    (okH && okP,
      { s with html2canvas := s.html2canvas || (net.loads h2cSrc && net.defines h2cSrc),
               jsPDF := s.jsPDF || (net.loads pdfSrc && net.defines pdfSrc) })

/-- Source `placeSlideOnStage(stage, slideEl)`: the holder is emptied and gets
a copy of the slide with `is-active` added. -/
def placeSlideOnStage (_stage : Stage) (slideEl : SlideEl) : Stage :=
  ⟨some ⟨slideEl.sec, slideEl.isActive || true⟩⟩

/-- The `for` loop of the export handler from index `i` on; `rest` is
`slides[i..]`. The capture `h2c` yields `none` when html2canvas rejects; the
loop then stops and the stage stays as it is. -/
def exportLoop {Img : Type} (h2c : Stage → Option Img) :
    Nat → List SlideEl → Stage → Pdf Img → Stage × Option (Pdf Img)
  | _, [], stage, pdf => (stage, some pdf)
  | i, sl :: rest, stage, pdf =>
    let staged := placeSlideOnStage stage sl
    match h2c staged with
    | none => (staged, none)
    | some img =>
      let pdf1 := if i > 0 then pdf.addPage else pdf
      exportLoop h2c (i + 1) rest staged (pdf1.addImage img)

/-- The statement `slides.forEach(sl => sl.classList.add('is-active'))`. -/
def activateAll (l : List SlideEl) : List SlideEl :=
  l.map fun u => { u with isActive := true }

/-- The state in which the export handler waits for `ensureLibs`. -/
def exportPrepare (s : Session) : Session :=
  { s with btnDisabled := true, exportingPdf := true, slides := activateAll s.slides }

/-- Whether the export stops at the libraries: `ensureLibs` rejects, or
html2canvas or jsPDF is still missing afterwards. -/
def libsFail (net : Network) (s : Session) : Bool :=
  let r := ensureLibs net (exportPrepare s)
  !r.1 || !(r.2.html2canvas && r.2.jsPDF)

/-- The `catch` block of the export handler. -/
def exportCatch (s : Session) : Session :=
  { s with exportingPdf := false, btnDisabled := false }

/-- The click handler that `setupPdfExport` installs. The result holds the
state afterwards and the document handed to `pdf.save`, if any. -/
def exportPdf {Img : Type} (net : Network) (h2c : Stage → Option Img) (s : Session) :
    Session × Option (Pdf Img) :=
  let r := ensureLibs net (exportPrepare s)
  if !r.1 || !(r.2.html2canvas && r.2.jsPDF) then (exportCatch r.2, none)
  else
    let s2 := r.2
    match exportLoop h2c 0 s2.slides ⟨none⟩ Pdf.new with
    | (stage, none) => (exportCatch { s2 with pdfStage := some stage }, none)
    | (_, some pdf) =>
      ({ s2 with pdfStage := none, exportingPdf := false, btnDisabled := false }, some pdf)

/-! ## Reachable states -/

/-- The states the session goes through: the start state, then loads,
navigation calls, callbacks from any observer made so far for targets it
still watches, and export runs. -/
inductive Reach (pg : Page) : Session → Prop
  | init : Reach pg Session.init
  | byLoad {s : Session} (res : Option Deck) : Reach pg s → Reach pg (loadContent pg res s)
  | byGoTo {s : Session} (i : Int) : Reach pg s → Reach pg (goTo pg s i)
  | byNext {s : Session} : Reach pg s → Reach pg (next pg s)
  | byPrev {s : Session} : Reach pg s → Reach pg (prev pg s)
  | byObserve {s : Session} (o : List Nat) (entries : List Entry) :
      o ∈ s.observers → (∀ e ∈ entries, e.target ∈ o) →
      Reach pg s → Reach pg (onIntersect pg s entries)
  | byExport {s : Session} {Img : Type} (net : Network) (h2c : Stage → Option Img) :
      Reach pg s → Reach pg (exportPdf net h2c s).1

/-- The positions of the units marked active. -/
def activeIndices (l : List SlideEl) : List Nat :=
  (List.range l.length).filter fun k => (l[k]?.map (·.isActive)).getD false

/-- The kinds of block the specification names. -/
inductive BlockKind where
  | heading
  | subheading
  | label
  | bullet
deriving DecidableEq, Repr

/-- The kind of block an element is, read off its tag: `h1` and `h2` are
headings, `p` a subheading, `div` (the `kicker`) a column label, `li` a
bullet. -/
def El.kind (e : El) : Option BlockKind :=
  if e.tag = "h1" ∨ e.tag = "h2" then some .heading
  else if e.tag = "p" then some .subheading
  else if e.tag = "div" then some .label
  else if e.tag = "li" then some .bullet
  else none

/-- What is read off an emitted element: its kind, its text and its
animation-order index. -/
def El.view (e : El) : Option BlockKind × String × Option Nat :=
  (e.kind, e.textContent, e.animate)

/-- Follows the specification: the heading and the subheading, each emitted
only if its text is present. -/
def specHead (s : SlideSpec) : List (BlockKind × String) :=
  (if truthy s.headline then [(BlockKind.heading, s.headline.getD "")] else []) ++
  (if truthy s.subheadline then [(BlockKind.subheading, s.subheadline.getD "")] else [])

/-- Follows the specification: a column is its label, if present, then its
bullets, at most six. -/
def specColumn (c : ColumnSpec) : List (BlockKind × String) :=
  (if truthy c.title then [(BlockKind.label, c.title.getD "")] else []) ++
  ((c.bullets.getD []).take 6).map fun b => (BlockKind.bullet, b)

/-- Follows the specification: the left column then the right column when a
column is declared, otherwise the flat bullets, at most six. -/
def specContent (s : SlideSpec) : List (BlockKind × String) :=
  if s.left.isSome || s.right.isSome then
    (s.left.map specColumn).getD [] ++ (s.right.map specColumn).getD []
  else ((s.bullets.getD []).take 6).map fun b => (BlockKind.bullet, b)

/-- Follows the specification: the blocks of a slide in build order, heading,
subheading, then columns or bullets. -/
def specBlocks (s : SlideSpec) : List (BlockKind × String) :=
  specHead s ++ specContent s

/-- The blocks numbered `i, i+1, ...` in order, in the form `El.view` reads. -/
def numberFrom : Nat → List (BlockKind × String) → List (Option BlockKind × String × Option Nat)
  | _, [] => []
  | i, (k, t) :: rest => (some k, t, some i) :: numberFrom (i + 1) rest

/-- The elements `els` are the blocks `blocks`, carrying the indices
`i, i+1, ...` in order, and `j` is the counter after them. -/
def Built (els : List El) (blocks : List (BlockKind × String)) (i j : Nat) : Prop :=
  els.map El.view = numberFrom i blocks ∧ j = i + blocks.length

/-- A title slide with a heading, a subheading, two columns and flat
bullets. -/
def fullSpec : SlideSpec :=
  ⟨some "title", some "Head", some "Sub", some ["z"],
    some ⟨some "L", some ["a", "b"]⟩, some ⟨some "R", some ["c"]⟩⟩

/-- A deck of twenty slides. -/
def twentyDeck : Deck :=
  ⟨some (List.replicate 20 ⟨none, some "S", none, none, none, none⟩)⟩

/-- The session after `twentyDeck` was loaded and its eleventh slide came into
view. -/
def twentyAtEleven : Session :=
  onIntersect ⟨true, true⟩ (loadContent ⟨true, true⟩ (some twentyDeck) Session.init) [⟨10, true⟩]

/-- An entry with both a right column and flat bullets. -/
def bothSpec : SlideSpec :=
  ⟨none, some "Plan", none, some ["a", "b"], none, some ⟨some "Next", some ["x"]⟩⟩

/-- A page with both the deck container and the progress bar. -/
def fullPage : Page := ⟨true, true⟩

/-- The deck of two slides: a title slide and a content slide with two
bullets. -/
def twoDeck : Deck :=
  ⟨some [⟨some "title", some "Welcome", none, none, none, none⟩,
         ⟨some "content", none, none, some ["a", "b"], none, none⟩]⟩

/-- The session after the first load of `twoDeck`. -/
def twoLoaded : Session := loadContent fullPage (some twoDeck) Session.init

/-- A network on which every script fails to load. -/
def netDown : Network := ⟨fun _ => false, fun _ => false⟩

/-- A network on which every script loads and defines its global. -/
def netUp : Network := ⟨fun _ => true, fun _ => true⟩

/-- A capture that returns the staged content itself as the image. -/
def snap : Stage → Option Stage := fun st => some st

/-- The session after loading a deck with no slides. -/
def emptyLoaded : Session := loadContent fullPage (some ⟨some []⟩) Session.init

/-- Of the observers made so far, the one `io` refers to watches exactly the
units of the current list and every other one watches nothing. -/
def WatchesCurrent (s : Session) : Prop :=
  ∀ k o, s.observers[k]? = some o →
    (s.io = some k → o = s.slides.map (·.ref)) ∧ (s.io ≠ some k → o = [])

/-- When the list is non-empty, `currentIndex` is a position of the list and
the unit there is marked active. -/
def ActiveAtIndex (s : Session) : Prop :=
  s.slides ≠ [] →
    0 ≤ s.currentIndex ∧ s.currentIndex ≤ (s.slides.length : Int) - 1 ∧
    ∃ u, s.slides[s.currentIndex.toNat]? = some u ∧ u.isActive = true

/-- The session after the second slide of `twoDeck` came into view. -/
def twoScrolled : Session := onIntersect fullPage twoLoaded [⟨1, true⟩]

/-- The session after `twoDeck` was loaded a second time: the units of the
first load (identities 0 and 1) are no longer in the list. -/
def twoReloaded : Session := loadContent fullPage (some twoDeck) twoLoaded

/-! ## Slide builder: proofs -/

theorem numberFrom_append (a b : List (BlockKind × String)) (i : Nat) :
    numberFrom i (a ++ b) = numberFrom i a ++ numberFrom (i + a.length) b := by
  induction a generalizing i with
  | nil => simp [numberFrom]
  | cons x rest ih =>
    obtain ⟨k, t⟩ := x
    have e : i + 1 + rest.length = i + (rest.length + 1) := by omega
    have h := ih (i + 1)
    rw [e] at h
    show (some k, t, some i) :: numberFrom (i + 1) (rest ++ b)
      = (some k, t, some i) :: numberFrom (i + 1) rest ++ numberFrom (i + (rest.length + 1)) b
    rw [h]; rfl

theorem numberFrom_length (l : List (BlockKind × String)) (i : Nat) :
    (numberFrom i l).length = l.length := by
  induction l generalizing i with
  | nil => rfl
  | cons x rest ih => obtain ⟨k, t⟩ := x; simp [numberFrom, ih]

theorem numberFrom_animate (l : List (BlockKind × String)) (i : Nat) :
    (numberFrom i l).map (·.2.2) = (List.range' i l.length).map some := by
  induction l generalizing i with
  | nil => rfl
  | cons x rest ih =>
    obtain ⟨k, t⟩ := x
    simp [numberFrom, ih, List.range'_succ]

theorem Built.nil (i : Nat) : Built [] [] i i := by
  simp [Built, numberFrom]

theorem Built.append {a b : List El} {x y : List (BlockKind × String)} {i j k : Nat}
    (ha : Built a x i j) (hb : Built b y j k) : Built (a ++ b) (x ++ y) i k := by
  obtain ⟨ha1, ha2⟩ := ha
  obtain ⟨hb1, hb2⟩ := hb
  subst ha2
  refine ⟨?_, by simp [hb2]; omega⟩
  rw [List.map_append, ha1, hb1, numberFrom_append]

theorem Built.single (el : El) (k : BlockKind) (i : Nat) (hk : el.kind = some k) :
    Built [(pushAnim el i).1] [(k, el.textContent)] i (pushAnim el i).2 := by
  have hkind : (pushAnim el i).1.kind = some k := by
    rw [← hk]; rfl
  have hview : (pushAnim el i).1.view = (some k, el.textContent, some i) := by
    simp only [El.view, hkind]; rfl
  exact ⟨by simp [numberFrom, hview], rfl⟩

theorem bulletItems_texts (l : List String) (i : Nat) :
    (bulletItems l i).1.map (·.textContent) = l := by
  induction l generalizing i with
  | nil => rfl
  | cons b rest ih => simp [bulletItems, pushAnim, ih]

theorem bulletItems_built (l : List String) (i : Nat) :
    Built (bulletItems l i).1 (l.map fun b => (BlockKind.bullet, b)) i (bulletItems l i).2 := by
  induction l generalizing i with
  | nil => exact Built.nil i
  | cons b rest ih =>
    have h := Built.append (Built.single ⟨"li", "", b, none⟩ BlockKind.bullet i (by simp [El.kind]))
      (ih (pushAnim ⟨"li", "", b, none⟩ i).2)
    simpa [bulletItems] using h

theorem buildBullets_built (l : List String) (i : Nat) :
    Built (buildBullets l i).1.items ((l.take 6).map fun b => (BlockKind.bullet, b)) i
      (buildBullets l i).2 :=
  bulletItems_built (l.take 6) i

theorem buildColumn_built (c : ColumnSpec) (i : Nat) :
    Built (buildColumn c i).1.els (specColumn c) i (buildColumn c i).2 := by
  obtain ⟨t, bl⟩ := c
  have hk : (⟨"div", "kicker", t.getD "", none⟩ : El).kind = some BlockKind.label := by
    simp [El.kind]
  by_cases ht : truthy t = true
  · cases bl with
    | none =>
      have h := Built.append (Built.single ⟨"div", "kicker", t.getD "", none⟩ BlockKind.label i hk)
        (Built.nil (pushAnim ⟨"div", "kicker", t.getD "", none⟩ i).2)
      simpa [buildColumn, Column.els, specColumn, ht] using h
    | some l =>
      have h := Built.append (Built.single ⟨"div", "kicker", t.getD "", none⟩ BlockKind.label i hk)
        (buildBullets_built l (pushAnim ⟨"div", "kicker", t.getD "", none⟩ i).2)
      simpa [buildColumn, Column.els, specColumn, ht] using h
  · cases bl with
    | none => simpa [buildColumn, Column.els, specColumn, ht] using Built.nil i
    | some l => simpa [buildColumn, Column.els, specColumn, ht] using buildBullets_built l i

theorem buildColumn?_built (c : Option ColumnSpec) (i : Nat) :
    Built (((buildColumn? c i).1.map Column.els).getD []) ((c.map specColumn).getD []) i
      (buildColumn? c i).2 := by
  cases c with
  | none => simpa [buildColumn?] using Built.nil i
  | some c => simpa [buildColumn?] using buildColumn_built c i

theorem buildHGroup_built (type : String) (s : SlideSpec) (i : Nat) :
    Built (buildHGroup type s i).1 (specHead s) i (buildHGroup type s i).2 := by
  have hk : ∀ (tag cls txt : String), tag = "h1" ∨ tag = "h2" →
      (⟨tag, cls, txt, none⟩ : El).kind = some BlockKind.heading := by
    intro tag cls txt h
    simp [El.kind, h]
  have hh : ∀ j, Built
      [(pushAnim ⟨if (type == "title" || type == "closing") = true then "h1" else "h2",
          if (type == "title" || type == "closing") = true then "title grad" else "h2 grad",
          s.headline.getD "", none⟩ j).1]
      [(BlockKind.heading, s.headline.getD "")] j (j + 1) := by
    intro j
    refine Built.single _ BlockKind.heading j (hk _ _ _ ?_)
    split
    · exact Or.inl rfl
    · exact Or.inr rfl
  have hp : ∀ j, Built
      [(pushAnim ⟨"p", if (type == "title" || type == "closing") = true then "sub" else "h3",
          s.subheadline.getD "", none⟩ j).1]
      [(BlockKind.subheading, s.subheadline.getD "")] j (j + 1) := by
    intro j
    exact Built.single _ BlockKind.subheading j (by simp [El.kind])
  unfold buildHGroup specHead
  by_cases h1 : truthy s.headline = true <;> by_cases h2 : truthy s.subheadline = true
  · simp only [h1, h2, if_true]
    exact Built.append (hh i) (hp (i + 1))
  · simp only [h1, h2, if_true]
    simpa using Built.append (hh i) (Built.nil (i + 1))
  · simp only [h1, h2, if_true]
    simpa using Built.append (Built.nil i) (hp i)
  · simp only [h1, h2]
    simpa using Built.nil i

theorem buildContent_built (s : SlideSpec) (i : Nat) :
    Built (buildContent s i).1.els (specContent s) i (buildContent s i).2 := by
  unfold buildContent specContent
  by_cases hc : (s.left.isSome || s.right.isSome) = true
  · simp only [hc, if_true]
    exact Built.append (buildColumn?_built s.left i) (buildColumn?_built s.right _)
  · simp only [hc]
    cases hb : s.bullets with
    | none => simpa [Content.els] using Built.nil i
    | some l => simpa [Content.els] using buildBullets_built l i

theorem createSlide_parts (s : SlideSpec) (idx : Nat) :
    ∃ (ty : String),
      (createSlide s idx).hgroup.getD [] = (buildHGroup ty s 0).1 ∧
      (createSlide s idx).content = (buildContent s (buildHGroup ty s 0).2).1 := by
  refine ⟨if truthy s.type then s.type.getD "" else "content", ?_, rfl⟩
  set ty := (if truthy s.type then s.type.getD "" else "content") with hty
  by_cases hf : ((ty == "title" || ty == "closing" || ty == "section")
      || !(buildHGroup ty s 0).1.isEmpty) = true
  · simp only [createSlide, ← hty, hf, if_true, Option.getD_some]
  · have hnil : (buildHGroup ty s 0).1 = [] := by
      simp only [Bool.or_eq_true, Bool.not_eq_true', not_or, Bool.not_eq_true,
        Bool.not_eq_false'] at hf
      exact List.isEmpty_iff.mp (by simpa using hf.2)
    simp only [createSlide, ← hty, hf, hnil]
    split <;> simp

theorem createSlide_content (s : SlideSpec) (idx : Nat) :
    ∃ k, (createSlide s idx).content = (buildContent s k).1 :=
  ⟨_, rfl⟩

/-- C1: the bullet list built by `buildBullets` holds exactly the first
min(|L|, 6) entries of `L`, in order and with the same text: a list longer than
6 yields exactly 6 items, a list of length at most 6 is preserved exactly. The
same holds for the list reached through `buildColumn` and for the flat
`bullets` list of `createSlide`, which are built by the same call. -/
theorem buildBullets_first_six (L : List String) (i : Nat) :
    (buildBullets L i).1.items.map (·.textContent) = L.take (min L.length 6) ∧
    (buildBullets L i).1.items.length = min L.length 6 ∧
    (buildBullets L i).1.items.map (·.textContent) = (if L.length ≤ 6 then L else L.take 6) ∧
    (buildBullets L i).1.items.length = (if 6 < L.length then 6 else L.length) ∧
    (∀ t : Option String, ∃ k,
      (buildColumn ⟨t, some L⟩ i).1.bullets = some (buildBullets L k).1) ∧
    (∀ (ty h sh : Option String) (idx : Nat), ∃ k,
      (createSlide ⟨ty, h, sh, some L, none, none⟩ idx).content
        = Content.bullets (buildBullets L k).1) := by
  have htexts : (buildBullets L i).1.items.map (·.textContent) = L.take 6 :=
    bulletItems_texts (L.take 6) i
  have hlen : (buildBullets L i).1.items.length = min L.length 6 := by
    have h := congrArg List.length htexts
    simp only [List.length_map, List.length_take] at h
    omega
  refine ⟨?_, hlen, ?_, ?_, ?_, ?_⟩
  · rw [htexts]
    by_cases h : L.length ≤ 6
    · rw [Nat.min_eq_left h, List.take_of_length_le h, List.take_of_length_le (le_refl _)]
    · rw [Nat.min_eq_right (by omega)]
  · rw [htexts]
    split
    · next h => exact List.take_of_length_le h
    · rfl
  · rw [hlen]
    split <;> omega
  · intro t
    by_cases ht : truthy t = true
    · exact ⟨(pushAnim ⟨"div", "kicker", t.getD "", none⟩ i).2, by simp [buildColumn, ht]⟩
    · exact ⟨i, by simp [buildColumn, ht]⟩
  · intro ty h sh idx
    obtain ⟨k, hk⟩ := createSlide_content ⟨ty, h, sh, some L, none, none⟩ idx
    exact ⟨k, by rw [hk]; simp [buildContent]⟩

/-- C7: the elements `createSlide` emits, read in document order, are exactly
the blocks the entry declares in the order heading, subheading, left column
label and bullets, right column label and bullets (or the flat bullets), and
the block at position `k` of that order carries animation-order index `k`: the
indices are 0, 1, ..., n-1 with no gap or repeat. The heading group holds the
heading and subheading with the first indices, the content block the rest,
numbered from the size of the heading group on. As `createSlide` is a function
of the entry, building the entry again gives the same indices. -/
theorem createSlide_indices (s : SlideSpec) (idx : Nat) :
    (createSlide s idx).els.map El.view = numberFrom 0 (specBlocks s) ∧
    (createSlide s idx).els.map (·.animate)
      = (List.range (createSlide s idx).els.length).map some ∧
    ((createSlide s idx).hgroup.getD []).map El.view = numberFrom 0 (specHead s) ∧
    (createSlide s idx).content.els.map El.view
      = numberFrom (specHead s).length (specContent s) := by
  obtain ⟨ty, hh, hc⟩ := createSlide_parts s idx
  obtain ⟨g1, g2⟩ := buildHGroup_built ty s 0
  obtain ⟨b1, _⟩ := buildContent_built s (buildHGroup ty s 0).2
  have g2' : (buildHGroup ty s 0).2 = (specHead s).length := by omega
  have hhead : ((createSlide s idx).hgroup.getD []).map El.view = numberFrom 0 (specHead s) := by
    rw [hh, g1]
  have hcont : (createSlide s idx).content.els.map El.view
      = numberFrom (specHead s).length (specContent s) := by
    rw [hc, b1, g2']
  have hall : (createSlide s idx).els.map El.view = numberFrom 0 (specBlocks s) := by
    simp only [Section.els, specBlocks, List.map_append, hhead, hcont, numberFrom_append,
      Nat.zero_add]
  refine ⟨hall, ?_, hhead, hcont⟩
  have hlen : (createSlide s idx).els.length = (specBlocks s).length := by
    have := congrArg List.length hall
    simpa [numberFrom_length] using this
  have hanim : (createSlide s idx).els.map (·.animate)
      = ((createSlide s idx).els.map El.view).map (·.2.2) := by
    simp [El.view]
  rw [hanim, hall, numberFrom_animate, hlen, List.range_eq_range']

/-- C8: for an entry that declares a `left` or a `right` column, `createSlide`
builds the two-column block and no flat bullet list, and the built unit is the
one of the entry with `bullets` removed. For any entry, a flat bullet list is
built exactly when neither column is declared and `bullets` is a sequence. -/
theorem createSlide_columns_first (s : SlideSpec) (idx : Nat)
    (h : s.left.isSome = true ∨ s.right.isSome = true) :
    createSlide s idx = createSlide { s with bullets := none } idx ∧
    (createSlide s idx).content.isCols = true ∧
    (createSlide s idx).content.isFlatBullets = false ∧
    ∀ (e : SlideSpec) (k : Nat), (createSlide e k).content.isFlatBullets = true ↔
      (e.left = none ∧ e.right = none ∧ e.bullets.isSome = true) := by
  have hc : (s.left.isSome || s.right.isSome) = true := by simpa using h
  have hcontent : ∀ i, buildContent s i = buildContent { s with bullets := none } i := by
    intro i; simp [buildContent, hc]
  refine ⟨?_, ?_, ?_, ?_⟩
  · simp only [createSlide, buildHGroup, hcontent]
  · simp [createSlide, buildContent, hc, Content.isCols]
  · simp [createSlide, buildContent, hc, Content.isFlatBullets]
  · intro e k
    cases hl : e.left <;> cases hr : e.right <;> cases hb : e.bullets <;>
      simp [createSlide, buildContent, hl, hr, hb, Content.isFlatBullets]

/-- C8, witness: an entry with a right column and flat bullets. -/
theorem createSlide_columns_first_witness :
    (bothSpec.left.isSome = true ∨ bothSpec.right.isSome = true) ∧
    (createSlide bothSpec 0 = createSlide { bothSpec with bullets := none } 0 ∧
    (createSlide bothSpec 0).content.isCols = true ∧
    (createSlide bothSpec 0).content.isFlatBullets = false ∧
    ∀ (e : SlideSpec) (k : Nat), (createSlide e k).content.isFlatBullets = true ↔
      (e.left = none ∧ e.right = none ∧ e.bullets.isSome = true)) :=
  ⟨Or.inr rfl, createSlide_columns_first bothSpec 0 (Or.inr rfl)⟩

theorem createSlide_fullSpec_view :
    (createSlide fullSpec 0).els.map El.view
      = [(some BlockKind.heading, "Head", some 0), (some BlockKind.subheading, "Sub", some 1),
         (some BlockKind.label, "L", some 2), (some BlockKind.bullet, "a", some 3),
         (some BlockKind.bullet, "b", some 4), (some BlockKind.label, "R", some 5),
         (some BlockKind.bullet, "c", some 6)] := by
  decide

/-! ## JavaScript numbers: proofs -/

theorem log2Fuel_spec (fuel : Nat) : ∀ n, n ≤ fuel → n ≠ 0 →
    2 ^ log2Fuel fuel n ≤ n ∧ n < 2 ^ (log2Fuel fuel n + 1) := by
  induction fuel with
  | zero => intro n h0 hn; omega
  | succ fuel ih =>
    intro n hle hn
    by_cases h2 : n < 2
    · have : n = 1 := by omega
      subst this
      simp [log2Fuel]
    · have hhalf : n / 2 ≤ fuel := by omega
      have hne : n / 2 ≠ 0 := by omega
      obtain ⟨l, u⟩ := ih (n / 2) hhalf hne
      simp only [log2Fuel, h2, if_false]
      constructor
      · rw [pow_succ]; omega
      · rw [pow_succ]; omega

theorem log2_spec (n : Nat) (hn : n ≠ 0) : 2 ^ log2 n ≤ n ∧ n < 2 ^ (log2 n + 1) :=
  log2Fuel_spec n n (le_refl n) hn

theorem roundUp_bounds (n d : Nat) (hn : 0 < n) (hd : 0 < d) :
    2 ^ 52 * (d * 2 ^ roundUp n d) ≤ n * 2 ^ (log2 d + 53) ∧
    n * 2 ^ (log2 d + 53) < 2 ^ 53 * (d * 2 ^ roundUp n d) := by
  obtain ⟨la, ua⟩ := log2_spec n (by omega)
  obtain ⟨lb, ub⟩ := log2_spec d (by omega)
  have e1 : n * 2 ^ (log2 d + 53) = 2 ^ 53 * (n * 2 ^ log2 d) := by rw [pow_add]; ring
  have e2 : d * 2 ^ (log2 n + 1) = 2 * (d * 2 ^ log2 n) := by rw [pow_succ]; ring
  have k1 : n * 2 ^ log2 d < 2 * (d * 2 ^ log2 n) := by
    calc n * 2 ^ log2 d < 2 ^ (log2 n + 1) * 2 ^ log2 d :=
          Nat.mul_lt_mul_of_pos_right ua (by positivity)
      _ ≤ 2 ^ (log2 n + 1) * d := Nat.mul_le_mul_left _ lb
      _ = 2 * (d * 2 ^ log2 n) := by rw [pow_succ]; ring
  have k2 : d * 2 ^ log2 n < 2 * (n * 2 ^ log2 d) := by
    calc d * 2 ^ log2 n < 2 ^ (log2 d + 1) * 2 ^ log2 n :=
          Nat.mul_lt_mul_of_pos_right ub (by positivity)
      _ ≤ 2 ^ (log2 d + 1) * n := Nat.mul_le_mul_left _ la
      _ = 2 * (n * 2 ^ log2 d) := by rw [pow_succ]; ring
  rw [e1]
  by_cases h : d * 2 ^ log2 n ≤ n * 2 ^ log2 d
  · simp only [roundUp, h, if_true]
    rw [e2]
    generalize d * 2 ^ log2 n = X at *
    generalize n * 2 ^ log2 d = Y at *
    omega
  · simp only [roundUp, h, if_false]
    generalize d * 2 ^ log2 n = X at *
    generalize n * 2 ^ log2 d = Y at *
    omega

theorem roundRatio_val (n d : Nat) (hn : n ≠ 0) :
    ((roundRatio n d).1 : ℚ) * (2 : ℚ) ^ (roundRatio n d).2
      = (roundMant n d : ℚ) * 2 ^ roundUp n d / 2 ^ (log2 d + 53) := by
  have h2 : (2 : ℚ) ≠ 0 := by norm_num
  have hz : (2 : ℚ) ^ ((roundUp n d : Int) - ((log2 d : Int) + 53))
      = 2 ^ roundUp n d / 2 ^ (log2 d + 53) := by
    rw [zpow_sub₀ h2]
    have : ((log2 d : Int) + 53) = ((log2 d + 53 : Nat) : Int) := by push_cast; ring
    rw [this, zpow_natCast, zpow_natCast]
  unfold roundRatio
  simp only [hn, if_false]
  split
  · next h =>
    rw [h, zpow_add_one₀ h2, hz]
    push_cast
    ring
  · rw [hz]; ring

theorem roundDiv_near (N D : Nat) (hDpos : 0 < D) :
    |(roundDiv N D : ℚ) - (N : ℚ) / (D : ℚ)| ≤ 1 / 2 := by
  have hdm : D * (N / D) + N % D = N := Nat.div_add_mod N D
  have hr : N % D < D := Nat.mod_lt N hDpos
  have hDq : (0 : ℚ) < (D : ℚ) := by exact_mod_cast hDpos
  have hdmq : (D : ℚ) * ((N / D : Nat) : ℚ) + ((N % D : Nat) : ℚ) = (N : ℚ) := by
    exact_mod_cast hdm
  have hrq : ((N % D : Nat) : ℚ) < (D : ℚ) := by exact_mod_cast hr
  have hr0 : (0 : ℚ) ≤ ((N % D : Nat) : ℚ) := Nat.cast_nonneg _
  have key : ∀ x : ℚ, |x * D - N| ≤ D / 2 → |x - (N : ℚ) / D| ≤ 1 / 2 := by
    intro x hx
    have : x - (N : ℚ) / D = (x * D - N) / D := by field_simp
    rw [this, abs_div, abs_of_pos hDq, div_le_iff₀ hDq]
    linarith
  by_cases hc : D < 2 * (N % D) ∨ (2 * (N % D) = D ∧ (N / D) % 2 = 1)
  · have hm : roundDiv N D = N / D + 1 := by
      simp only [roundDiv, hc, if_true]
    have h2r : (D : ℚ) ≤ 2 * ((N % D : Nat) : ℚ) := by
      rcases hc with h | ⟨h, _⟩
      · exact_mod_cast h.le
      · exact_mod_cast h.ge
    rw [hm]
    apply key
    push_cast
    rw [abs_le]
    constructor <;> nlinarith
  · have hm : roundDiv N D = N / D := by
      simp only [roundDiv, hc, if_false]
    have h2r : 2 * ((N % D : Nat) : ℚ) ≤ (D : ℚ) := by
      have : 2 * (N % D) ≤ D := by
        by_contra h
        exact hc (Or.inl (by omega))
      exact_mod_cast this
    rw [hm]
    apply key
    rw [abs_le]
    constructor <;> nlinarith

theorem roundDiv_le (N D P : Nat) (hDpos : 0 < D) (h : N ≤ D * P) : roundDiv N D ≤ P := by
  have hdm : D * (N / D) + N % D = N := Nat.div_add_mod N D
  have hm : N / D ≤ P := Nat.div_le_of_le_mul h
  unfold roundDiv
  simp only
  split
  · next hc =>
    by_contra hlt
    have hmP : N / D = P := by omega
    rw [hmP] at hdm
    have hr0 : N % D = 0 := by omega
    rw [hr0] at hc
    omega
  · exact hm

theorem roundDiv_ge (N D P : Nat) (hDpos : 0 < D) (h : P * D ≤ N) : P ≤ roundDiv N D := by
  have hm : P ≤ N / D := (Nat.le_div_iff_mul_le hDpos).mpr h
  unfold roundDiv
  simp only
  split <;> omega

theorem roundRatio_near (n d : Nat) (hn : 0 < n) (hd : 0 < d) :
    |((roundRatio n d).1 : ℚ) * (2 : ℚ) ^ (roundRatio n d).2 - (n : ℚ) / (d : ℚ)|
      ≤ (n : ℚ) / (d : ℚ) / 2 ^ 53 := by
  rw [roundRatio_val n d (by omega)]
  obtain ⟨lo, _⟩ := roundUp_bounds n d hn hd
  have hDpos : 0 < d * 2 ^ roundUp n d := by positivity
  have hnear := roundDiv_near (n * 2 ^ (log2 d + 53)) (d * 2 ^ roundUp n d) hDpos
  have hloq : (2 : ℚ) ^ 52 * ((d * 2 ^ roundUp n d : Nat) : ℚ)
      ≤ ((n * 2 ^ (log2 d + 53) : Nat) : ℚ) := by exact_mod_cast lo
  have hM : (roundMant n d : ℚ) = (roundDiv (n * 2 ^ (log2 d + 53)) (d * 2 ^ roundUp n d) : ℚ) := rfl
  rw [hM]
  generalize (roundDiv (n * 2 ^ (log2 d + 53)) (d * 2 ^ roundUp n d) : ℚ) = M at *
  push_cast at hnear hloq
  have hdq : (0 : ℚ) < (d : ℚ) := by exact_mod_cast hd
  have hnq : (0 : ℚ) < (n : ℚ) := by exact_mod_cast hn
  have hE : (0 : ℚ) < (2 : ℚ) ^ roundUp n d := by positivity
  have hS : (0 : ℚ) < (2 : ℚ) ^ (log2 d + 53) := by positivity
  generalize (2 : ℚ) ^ roundUp n d = e at *
  generalize (2 : ℚ) ^ (log2 d + 53) = t at *
  have hs : (2 : ℚ) ^ 52 ≤ n * t / (d * e) := by
    rw [le_div_iff₀ (by positivity)]; linarith
  have hq : (n : ℚ) / d = n * t / (d * e) * (e / t) := by field_simp; ring
  have hv : M * e / t - (n : ℚ) / d = (M - n * t / (d * e)) * (e / t) := by
    rw [hq]; ring
  have het : (0 : ℚ) < e / t := by positivity
  rw [hv, abs_mul, abs_of_pos het, hq]
  have : |M - n * t / (d * e)| ≤ n * t / (d * e) / 2 ^ 53 := by
    have h53 : (2 : ℚ) ^ 53 = 2 * 2 ^ 52 := by norm_num
    rw [le_div_iff₀ (by positivity), h53]
    nlinarith [abs_nonneg (M - n * t / (d * e))]
  calc |M - n * t / (d * e)| * (e / t)
      ≤ n * t / (d * e) / 2 ^ 53 * (e / t) := mul_le_mul_of_nonneg_right this het.le
    _ = n * t / (d * e) * (e / t) / 2 ^ 53 := by ring

theorem log2_mono (n d : Nat) (hn : 0 < n) (hnd : n ≤ d) : log2 n ≤ log2 d := by
  obtain ⟨la, _⟩ := log2_spec n (by omega)
  obtain ⟨_, ub⟩ := log2_spec d (by omega)
  have : 2 ^ log2 n < 2 ^ (log2 d + 1) := by omega
  have := (Nat.pow_lt_pow_iff_right (by norm_num : 1 < 2)).mp this
  omega

theorem roundRatio_le_one (n d : Nat) (hn : 0 < n) (hnd : n ≤ d) :
    ((roundRatio n d).1 : ℚ) * (2 : ℚ) ^ (roundRatio n d).2 ≤ 1 := by
  rw [roundRatio_val n d (by omega)]
  have hd : 0 < d := by omega
  have hE : roundUp n d ≤ log2 d + 53 := by
    have := log2_mono n d hn hnd
    unfold roundUp
    split <;> omega
  have hpow : 2 ^ (log2 d + 53) = 2 ^ (log2 d + 53 - roundUp n d) * 2 ^ roundUp n d := by
    rw [← pow_add]; congr 1; omega
  have hDpos : 0 < d * 2 ^ roundUp n d := by positivity
  have hle : roundMant n d ≤ 2 ^ (log2 d + 53 - roundUp n d) := by
    apply roundDiv_le _ _ _ hDpos
    rw [hpow]
    calc n * (2 ^ (log2 d + 53 - roundUp n d) * 2 ^ roundUp n d)
        ≤ d * (2 ^ (log2 d + 53 - roundUp n d) * 2 ^ roundUp n d) :=
          Nat.mul_le_mul_right _ hnd
      _ = d * 2 ^ roundUp n d * 2 ^ (log2 d + 53 - roundUp n d) := by ring
  have hle2 : roundMant n d * 2 ^ roundUp n d ≤ 2 ^ (log2 d + 53) := by
    rw [hpow]; exact Nat.mul_le_mul_right _ hle
  have hq : (roundMant n d : ℚ) * 2 ^ roundUp n d ≤ 2 ^ (log2 d + 53) := by
    exact_mod_cast hle2
  rw [div_le_one (by positivity)]
  exact hq

theorem roundRatio_pos (n d : Nat) (hn : 0 < n) (hd : 0 < d) :
    0 < ((roundRatio n d).1 : ℚ) * (2 : ℚ) ^ (roundRatio n d).2 := by
  rw [roundRatio_val n d (by omega)]
  obtain ⟨lo, _⟩ := roundUp_bounds n d hn hd
  have hDpos : 0 < d * 2 ^ roundUp n d := by positivity
  have hge : 2 ^ 52 ≤ roundDiv (n * 2 ^ (log2 d + 53)) (d * 2 ^ roundUp n d) :=
    roundDiv_ge (n * 2 ^ (log2 d + 53)) (d * 2 ^ roundUp n d) (2 ^ 52) hDpos lo
  have hpos : 0 < roundDiv (n * 2 ^ (log2 d + 53)) (d * 2 ^ roundUp n d) :=
    Nat.lt_of_lt_of_le (Nat.two_pow_pos 52) hge
  have hq : (0 : ℚ) < (roundDiv (n * 2 ^ (log2 d + 53)) (d * 2 ^ roundUp n d) : ℚ) := by
    exact_mod_cast hpos
  have hM : (roundMant n d : ℚ) = (roundDiv (n * 2 ^ (log2 d + 53)) (d * 2 ^ roundUp n d) : ℚ) := rfl
  rw [hM]
  have hE : (0 : ℚ) < (2 : ℚ) ^ roundUp n d := by positivity
  have hS : (0 : ℚ) < (2 : ℚ) ^ (log2 d + 53) := by positivity
  exact div_pos (mul_pos hq hE) hS

theorem roundDiv_exact (D P : Nat) (hD : 0 < D) : roundDiv (D * P) D = P := by
  have h1 : D * P / D = P := Nat.mul_div_cancel_left P hD
  have h2 : D * P % D = 0 := Nat.mul_mod_right D P
  unfold roundDiv
  simp only [h1, h2]
  split
  · next hc => omega
  · rfl

theorem roundRatio_self (n : Nat) (hn : 0 < n) : roundRatio n n = (2 ^ 52, -52) := by
  have hup : roundUp n n = log2 n + 1 := by simp [roundUp]
  have hN : n * 2 ^ (log2 n + 53) = n * 2 ^ (log2 n + 1) * 2 ^ 52 := by
    rw [Nat.mul_assoc, ← pow_add]
  have hm : roundMant n n = 2 ^ 52 := by
    unfold roundMant
    rw [hup, hN]
    exact roundDiv_exact _ _ (by positivity)
  have hne : n ≠ 0 := by omega
  unfold roundRatio
  rw [hm, hup]
  simp only [hne, if_false]
  have h53 : ¬ ((2 : Nat) ^ 52 = 2 ^ 53) := by decide
  simp only [h53, if_false, Prod.mk.injEq, true_and]
  push_cast
  omega

theorem two_zpow_split (e : ℤ) : (2 : ℚ) ^ e = (2 : ℚ) ^ e.toNat / (2 : ℚ) ^ (-e).toNat := by
  rcases le_total 0 e with h | h
  · have h0 : (-e).toNat = 0 := by omega
    rw [h0, pow_zero, div_one, ← zpow_natCast, Int.toNat_of_nonneg h]
  · have h0 : e.toNat = 0 := by omega
    have h1 : 0 ≤ -e := by omega
    rw [h0, pow_zero, one_div, ← zpow_natCast, Int.toNat_of_nonneg h1, zpow_neg, inv_inv]

theorem fdiv_toRat (a : Int) (b : Nat) (ha : 0 < a) :
    (fdiv a b).toRat
      = ((roundRatio a.toNat b).1 : ℚ) * (2 : ℚ) ^ (roundRatio a.toNat b).2 ∧
    (fdiv a b).neg = false ∧ (fdiv a b).mant = (roundRatio a.toNat b).1 := by
  have hneg : ¬ a < 0 := by omega
  have habs : a.natAbs = a.toNat := by omega
  simp [fdiv, Dbl.toRat, hneg, habs]

theorem fmul_toRat (x : Dbl) (c : Nat) (hneg : x.neg = false) :
    (fmul x c).toRat
      = ((roundRatio (x.mant * c * 2 ^ x.exp.toNat) (2 ^ (-x.exp).toNat)).1 : ℚ)
        * (2 : ℚ) ^ (roundRatio (x.mant * c * 2 ^ x.exp.toNat) (2 ^ (-x.exp).toNat)).2 := by
  simp [fmul, Dbl.toRat, hneg]

theorem fdiv_near (a : Int) (b : Nat) (ha : 0 < a) (hb : 0 < b) :
    |(fdiv a b).toRat - (a : ℚ) / (b : ℚ)| ≤ (a : ℚ) / (b : ℚ) / 2 ^ 53 := by
  have hcast : ((a.toNat : Nat) : ℚ) = (a : ℚ) := by
    have : ((a.toNat : Nat) : Int) = a := Int.toNat_of_nonneg ha.le
    exact_mod_cast this
  rw [(fdiv_toRat a b ha).1, ← hcast]
  exact roundRatio_near a.toNat b (by omega) hb

theorem fmul_near (x : Dbl) (c : Nat) (hneg : x.neg = false) (hm : 0 < x.mant) (hc : 0 < c) :
    |(fmul x c).toRat - x.toRat * (c : ℚ)| ≤ x.toRat * (c : ℚ) / 2 ^ 53 := by
  have hx : x.toRat * (c : ℚ)
      = ((x.mant * c * 2 ^ x.exp.toNat : Nat) : ℚ) / ((2 ^ (-x.exp).toNat : Nat) : ℚ) := by
    simp only [Dbl.toRat, hneg, Bool.false_eq_true, if_false]
    rw [two_zpow_split x.exp]
    push_cast
    ring
  rw [fmul_toRat x c hneg, hx]
  exact roundRatio_near _ _ (by positivity) (by positivity)

theorem fdiv_mant_pos (a : Int) (b : Nat) (ha : 0 < a) (hb : 0 < b) : 0 < (fdiv a b).mant := by
  obtain ⟨_, _, hm⟩ := fdiv_toRat a b ha
  have hpos := roundRatio_pos a.toNat b (by omega) hb
  rw [hm]
  by_contra h0
  have hz : (roundRatio a.toNat b).1 = 0 := by omega
  rw [hz] at hpos
  simp at hpos

/-! ## Deck session: proofs -/

@[simp] theorem updateProgress_slides (pg : Page) (s : Session) :
    (updateProgress pg s).slides = s.slides := by
  unfold updateProgress; split <;> rfl

@[simp] theorem updateProgress_currentIndex (pg : Page) (s : Session) :
    (updateProgress pg s).currentIndex = s.currentIndex := by
  unfold updateProgress; split <;> rfl

@[simp] theorem updateProgress_io (pg : Page) (s : Session) :
    (updateProgress pg s).io = s.io := by
  unfold updateProgress; split <;> rfl

@[simp] theorem updateProgress_observers (pg : Page) (s : Session) :
    (updateProgress pg s).observers = s.observers := by
  unfold updateProgress; split <;> rfl

/-- With a hundred slides, index 6 gives 7.000000000000001 (7 + 2^-50) and
index 28 gives 28.999999999999996 (29 - 2^-48): the binary64 results. -/
theorem percent_of_hundred :
    fmul (fdiv (6 + 1) 100) 100 = ⟨false, 7881299347898369, -50⟩ ∧
    fmul (fdiv (28 + 1) 100) 100 = ⟨false, 8162774324609023, -48⟩ := by
  decide

/-- C3, counterexample: with twenty slides and `currentIndex` 10 the fraction
`updateProgress` computes is not 11/20 and the bar height it writes is
55.00000000000001 (55 + 2^-47), not (11/20) * 100 = 55. -/
theorem progress_not_exact :
    twentyAtEleven.slides.length = 20 ∧ twentyAtEleven.currentIndex = 10 ∧
    twentyAtEleven.barHeight = some ⟨false, 7740561859543041, -47⟩ ∧
    (⟨false, 7740561859543041, -47⟩ : Dbl).toRat = 55 + 1 / 2 ^ 47 ∧
    (⟨false, 7740561859543041, -47⟩ : Dbl).toRat
      ≠ (((10 : Int) : ℚ) + 1) / ((20 : Nat) : ℚ) * 100 ∧
    (fdiv (10 + 1) 20).toRat ≠ (((10 : Int) : ℚ) + 1) / ((20 : Nat) : ℚ) := by
  have hv : (⟨false, 7740561859543041, -47⟩ : Dbl).toRat = 55 + 1 / 2 ^ 47 := by
    simp only [Dbl.toRat, Bool.false_eq_true, if_false]
    rw [zpow_neg]
    norm_num
  have hf : fdiv (10 + 1) 20 = ⟨false, 4953959590107546, -53⟩ := by decide
  refine ⟨by decide, by decide, by decide, hv, ?_, ?_⟩
  · rw [hv]; norm_num
  · rw [hf]
    simp only [Dbl.toRat, Bool.false_eq_true, if_false]
    rw [zpow_neg]
    norm_num

/-- C3, amended: for a non-empty session with `currentIndex` in
`[0, length-1]` (a progress bar on the page, the length an array length),
`updateProgress` computes the progress value `p` as the binary64 quotient of
`currentIndex + 1` by `length`, which is `(currentIndex + 1) / length` up to
one rounding (relative error at most 2^-53), and writes the binary64 product
`p * 100` as the bar height in percent, which is `p * 100` up to one rounding;
`p` lies in `(0, 1]` and is exactly 1 when `currentIndex + 1 = length`, so with
exactly one slide it is 1.0. With zero slides `updateProgress` computes
nothing and leaves the state as it is. -/
theorem updateProgress_rounded (pg : Page) (s : Session)
    (hbar : pg.hasBar = true) (hne : s.slides ≠ [])
    (h0 : 0 ≤ s.currentIndex) (h1 : s.currentIndex < s.slides.length)
    (_hlen : s.slides.length < 2 ^ 32) :
    (∃ p : Dbl, p = fdiv (s.currentIndex + 1) s.slides.length ∧
      (updateProgress pg s).barHeight = some (fmul p 100) ∧
      |p.toRat - ((s.currentIndex : ℚ) + 1) / (s.slides.length : ℚ)|
        ≤ ((s.currentIndex : ℚ) + 1) / (s.slides.length : ℚ) / 2 ^ 53 ∧
      |(fmul p 100).toRat - p.toRat * 100| ≤ p.toRat * 100 / 2 ^ 53 ∧
      0 < p.toRat ∧ p.toRat ≤ 1 ∧
      (s.currentIndex + 1 = s.slides.length → p.toRat = 1) ∧
      (s.slides.length = 1 → p.toRat = 1)) ∧
    ∀ s0 : Session, s0.slides = [] → updateProgress pg s0 = s0 := by
  have hlen : 0 < s.slides.length := List.length_pos.mpr hne
  have ha : 0 < s.currentIndex + 1 := by omega
  have hcast : ((s.currentIndex + 1 : Int) : ℚ) = (s.currentIndex : ℚ) + 1 := by push_cast; ring
  obtain ⟨hrat, hneg, _⟩ := fdiv_toRat (s.currentIndex + 1) s.slides.length ha
  have hone : s.currentIndex + 1 = s.slides.length →
      (fdiv (s.currentIndex + 1) s.slides.length).toRat = 1 := by
    intro heq
    have hn : (s.currentIndex + 1).toNat = s.slides.length := by omega
    rw [hrat, hn, roundRatio_self _ hlen]
    norm_num
  refine ⟨⟨fdiv (s.currentIndex + 1) s.slides.length, rfl, ?_, ?_, ?_, ?_, ?_, hone, ?_⟩, ?_⟩
  · have hl : ¬ s.slides.length = 0 := by omega
    simp [updateProgress, hbar, hl]
  · have h := fdiv_near (s.currentIndex + 1) s.slides.length ha hlen
    rw [hcast] at h
    exact h
  · have h := fmul_near (fdiv (s.currentIndex + 1) s.slides.length) 100 hneg
      (fdiv_mant_pos _ _ ha hlen) (by norm_num)
    simpa using h
  · rw [hrat]
    exact roundRatio_pos _ _ (by omega) hlen
  · rw [hrat]
    exact roundRatio_le_one _ _ (by omega) (by omega)
  · intro h1s
    exact hone (by omega)
  · intro s0 hs0
    simp [updateProgress, hs0]

/-- C3, witness: the loaded two-slide deck on a page with a progress bar. -/
theorem updateProgress_rounded_witness :
    fullPage.hasBar = true ∧ twoLoaded.slides ≠ [] ∧ 0 ≤ twoLoaded.currentIndex ∧
    twoLoaded.currentIndex < twoLoaded.slides.length ∧ twoLoaded.slides.length < 2 ^ 32 ∧
    ((∃ p : Dbl, p = fdiv (twoLoaded.currentIndex + 1) twoLoaded.slides.length ∧
      (updateProgress fullPage twoLoaded).barHeight = some (fmul p 100) ∧
      |p.toRat - ((twoLoaded.currentIndex : ℚ) + 1) / (twoLoaded.slides.length : ℚ)|
        ≤ ((twoLoaded.currentIndex : ℚ) + 1) / (twoLoaded.slides.length : ℚ) / 2 ^ 53 ∧
      |(fmul p 100).toRat - p.toRat * 100| ≤ p.toRat * 100 / 2 ^ 53 ∧
      0 < p.toRat ∧ p.toRat ≤ 1 ∧
      (twoLoaded.currentIndex + 1 = twoLoaded.slides.length → p.toRat = 1) ∧
      (twoLoaded.slides.length = 1 → p.toRat = 1)) ∧
    ∀ s0 : Session, s0.slides = [] → updateProgress fullPage s0 = s0) :=
  ⟨rfl, by decide, by decide, by decide, by decide,
    updateProgress_rounded fullPage twoLoaded rfl (by decide) (by decide) (by decide)
      (by decide)⟩

theorem createSlides_length (base : Nat) (l : List SlideSpec) (idx : Nat) :
    (createSlides base l idx).length = l.length := by
  induction l generalizing idx with
  | nil => rfl
  | cons sp rest ih => simp [createSlides, ih]

theorem createSlides_get (base : Nat) (l : List SlideSpec) (idx k : Nat) (hk : k < l.length) :
    (createSlides base l idx)[k]? = some ⟨base + (idx + k), createSlide l[k] (idx + k), false⟩ := by
  induction l generalizing idx k with
  | nil => simp at hk
  | cons sp rest ih =>
    cases k with
    | zero => simp [createSlides]
    | succ k =>
      have hk1 : k < rest.length := by simpa using hk
      simp only [createSlides, List.getElem?_cons_succ, List.getElem_cons_succ]
      rw [ih (idx + 1) k hk1]
      have : idx + 1 + k = idx + (k + 1) := by omega
      rw [this]

theorem filter_toBoolean (l : List SlideEl) : l.filter SlideEl.toBoolean = l := by
  induction l with
  | nil => rfl
  | cons u rest ih => simp [List.filter, SlideEl.toBoolean, ih]

theorem activateFirst_length (l : List SlideEl) : (activateFirst l).length = l.length := by
  cases l <;> rfl

theorem activateFirst_sec (l : List SlideEl) (k : Nat) :
    (activateFirst l)[k]?.map (·.sec) = l[k]?.map (·.sec) := by
  cases l with
  | nil => rfl
  | cons u rest => cases k <;> simp [activateFirst]

theorem activateFirst_ref (l : List SlideEl) :
    (activateFirst l).map (·.ref) = l.map (·.ref) := by
  cases l <;> simp [activateFirst]

theorem activateFirst_head (l : List SlideEl) (u : SlideEl)
    (h : (activateFirst l)[0]? = some u) : u.isActive = true := by
  cases l with
  | nil => simp [activateFirst] at h
  | cons v rest =>
    simp only [activateFirst, List.getElem?_cons_zero, Option.some.injEq] at h
    rw [← h]

theorem renderDeck_slides (pg : Page) (data : Deck) (s : Session) (hdeck : pg.hasDeck = true) :
    (renderDeck pg data s).slides = activateFirst (createSlides s.nextRef (data.slides.getD []) 0) ∧
    (renderDeck pg data s).currentIndex = 0 ∧ (renderDeck pg data s).io = s.io ∧
    (renderDeck pg data s).observers = s.observers := by
  simp [renderDeck, hdeck, filter_toBoolean]

/-- C4: on a page with the deck container, `renderDeck` builds a list of slide
units whose length is the number of entries minus the number of entries whose
built unit is falsy; no built unit is falsy, so every entry survives; unit `k`
is the unit `createSlide` builds from entry `k`; afterwards `currentIndex` is 0
and, when the list is non-empty, unit 0 is marked active. -/
theorem renderDeck_units (pg : Page) (data : Deck) (s : Session) (hdeck : pg.hasDeck = true) :
    (renderDeck pg data s).slides.length
      = (data.slides.getD []).length
        - ((createSlides s.nextRef (data.slides.getD []) 0).filter
            (fun u => !u.toBoolean)).length ∧
    ((createSlides s.nextRef (data.slides.getD []) 0).filter (fun u => !u.toBoolean)).length = 0 ∧
    (∀ (k : Nat) (hk : k < (data.slides.getD []).length),
      (renderDeck pg data s).slides[k]?.map (·.sec)
        = some (createSlide (data.slides.getD [])[k] k)) ∧
    (renderDeck pg data s).currentIndex = 0 ∧
    (∀ u, (renderDeck pg data s).slides[0]? = some u → u.isActive = true) ∧
    ((renderDeck pg data s).slides ≠ [] → ∃ u, (renderDeck pg data s).slides[0]? = some u) := by
  obtain ⟨hs, hc, _, _⟩ := renderDeck_slides pg data s hdeck
  have hrej : ((createSlides s.nextRef (data.slides.getD []) 0).filter
      (fun u => !u.toBoolean)).length = 0 := by
    simp [SlideEl.toBoolean]
  refine ⟨?_, hrej, ?_, hc, ?_, ?_⟩
  · rw [hrej, hs, activateFirst_length, createSlides_length]; rfl
  · intro k hk
    rw [hs, activateFirst_sec, createSlides_get _ _ 0 k hk]
    simp
  · intro u hu
    rw [hs] at hu
    exact activateFirst_head _ u hu
  · intro hne
    cases h : (renderDeck pg data s).slides with
    | nil => exact absurd h hne
    | cons u rest => exact ⟨u, by simp⟩

/-- C4, witness: rendering the two-slide deck from the start state. -/
theorem renderDeck_units_witness :
    fullPage.hasDeck = true ∧
    ((renderDeck fullPage twoDeck Session.init).slides.length
      = (twoDeck.slides.getD []).length
        - ((createSlides Session.init.nextRef (twoDeck.slides.getD []) 0).filter
            (fun u => !u.toBoolean)).length ∧
    ((createSlides Session.init.nextRef (twoDeck.slides.getD []) 0).filter
      (fun u => !u.toBoolean)).length = 0 ∧
    (∀ (k : Nat) (hk : k < (twoDeck.slides.getD []).length),
      (renderDeck fullPage twoDeck Session.init).slides[k]?.map (·.sec)
        = some (createSlide (twoDeck.slides.getD [])[k] k)) ∧
    (renderDeck fullPage twoDeck Session.init).currentIndex = 0 ∧
    (∀ u, (renderDeck fullPage twoDeck Session.init).slides[0]? = some u → u.isActive = true) ∧
    ((renderDeck fullPage twoDeck Session.init).slides ≠ [] →
      ∃ u, (renderDeck fullPage twoDeck Session.init).slides[0]? = some u)) :=
  ⟨rfl, renderDeck_units fullPage twoDeck Session.init rfl⟩

/-- C2, counterexample: on the loaded two-slide deck, where `currentIndex` is
0, `goTo(1)` leaves `currentIndex` at 0, while clamp(1, 0, 1) is 1. -/
theorem goTo_index_not_clamped :
    twoLoaded.slides ≠ [] ∧ twoLoaded.currentIndex = 0 ∧
    ¬ ((goTo fullPage twoLoaded 1).currentIndex
        = max 0 (min 1 ((twoLoaded.slides.length : Int) - 1))) := by
  decide

/-- C2, amended: on a page with the deck container and for a non-empty
session, `goTo(i)` asks for a scroll to the unit at clamp(i, 0, length-1) and
leaves `currentIndex`, the slide list and its active marks as they were;
`next()` and `prev()` are `goTo(currentIndex + 1)` and
`goTo(currentIndex - 1)`. -/
theorem goTo_requests_scroll (pg : Page) (s : Session) (i : Int)
    (hdeck : pg.hasDeck = true) (hne : s.slides ≠ []) :
    (∃ u, s.slides[(max 0 (min i ((s.slides.length : Int) - 1))).toNat]? = some u ∧
      (goTo pg s i).scrolledTo = some u.ref) ∧
    (max 0 (min i ((s.slides.length : Int) - 1))).toNat < s.slides.length ∧
    (goTo pg s i).currentIndex = s.currentIndex ∧
    (goTo pg s i).slides = s.slides ∧
    next pg s = goTo pg s (s.currentIndex + 1) ∧
    prev pg s = goTo pg s (s.currentIndex - 1) := by
  have hlen : 0 < s.slides.length := List.length_pos.mpr hne
  have hl : ¬ s.slides.length = 0 := by omega
  have hlt : (max 0 (min i ((s.slides.length : Int) - 1))).toNat < s.slides.length := by
    omega
  obtain ⟨u, hu⟩ : ∃ u, s.slides[(max 0 (min i ((s.slides.length : Int) - 1))).toNat]? = some u :=
    ⟨_, List.getElem?_eq_getElem hlt⟩
  refine ⟨⟨u, hu, ?_⟩, hlt, ?_, ?_, rfl, rfl⟩
  · simp only [goTo, hl, hdeck, if_false, Bool.not_true, hu]
    simp
  · simp only [goTo, hl, hdeck, if_false, Bool.not_true, hu]
    simp
  · simp only [goTo, hl, hdeck, if_false, Bool.not_true, hu]
    simp

/-- C2, witness: `goTo(5)` on the loaded two-slide deck. -/
theorem goTo_requests_scroll_witness :
    fullPage.hasDeck = true ∧ twoLoaded.slides ≠ [] ∧
    ((∃ u, twoLoaded.slides[(max 0 (min 5 ((twoLoaded.slides.length : Int) - 1))).toNat]? = some u ∧
      (goTo fullPage twoLoaded 5).scrolledTo = some u.ref) ∧
    (max 0 (min 5 ((twoLoaded.slides.length : Int) - 1))).toNat < twoLoaded.slides.length ∧
    (goTo fullPage twoLoaded 5).currentIndex = twoLoaded.currentIndex ∧
    (goTo fullPage twoLoaded 5).slides = twoLoaded.slides ∧
    next fullPage twoLoaded = goTo fullPage twoLoaded (twoLoaded.currentIndex + 1) ∧
    prev fullPage twoLoaded = goTo fullPage twoLoaded (twoLoaded.currentIndex - 1)) :=
  ⟨rfl, by decide, goTo_requests_scroll fullPage twoLoaded 5 rfl (by decide)⟩

/-! ## PDF export: proofs -/

theorem ensureLibs_slides (net : Network) (s : Session) :
    (ensureLibs net s).2.slides = s.slides ∧
    (ensureLibs net s).2.currentIndex = s.currentIndex ∧
    (ensureLibs net s).2.io = s.io ∧
    (ensureLibs net s).2.observers = s.observers := by
  unfold ensureLibs; dsimp only; split <;> simp

theorem activateAll_ref (l : List SlideEl) : (activateAll l).map (·.ref) = l.map (·.ref) := by
  simp [activateAll]

theorem activateAll_length (l : List SlideEl) : (activateAll l).length = l.length := by
  simp [activateAll]

theorem activateAll_get (l : List SlideEl) (k : Nat) (u : SlideEl) (h : l[k]? = some u) :
    (activateAll l)[k]? = some { u with isActive := true } := by
  simp [activateAll, h]

theorem exportPdf_state {Img : Type} (net : Network) (h2c : Stage → Option Img) (s : Session) :
    (exportPdf net h2c s).1.slides = activateAll s.slides ∧
    (exportPdf net h2c s).1.currentIndex = s.currentIndex ∧
    (exportPdf net h2c s).1.io = s.io ∧
    (exportPdf net h2c s).1.observers = s.observers := by
  obtain ⟨h1, h2, h3, h4⟩ := ensureLibs_slides net (exportPrepare s)
  have e1 : (exportPrepare s).slides = activateAll s.slides := rfl
  have e2 : (exportPrepare s).currentIndex = s.currentIndex := rfl
  have e3 : (exportPrepare s).io = s.io := rfl
  have e4 : (exportPrepare s).observers = s.observers := rfl
  unfold exportPdf
  dsimp only
  split
  · simp [exportCatch, h1, h2, h3, h4, e1, e2, e3, e4]
  · split
    · simp [exportCatch, h1, h2, h3, h4, e1, e2, e3, e4]
    · simp [h1, h2, h3, h4, e1, e2, e3, e4]

/-- C6, counterexample: on the loaded two-slide deck only unit 0 is marked
active; an export that fails because no library loads leaves both units marked
active. -/
theorem export_failure_changes_marks :
    libsFail netDown twoLoaded = true ∧
    activeIndices twoLoaded.slides = [0] ∧
    activeIndices (exportPdf netDown snap twoLoaded).1.slides = [0, 1] := by
  decide

/-- C6, amended: an export that stops at the libraries (`ensureLibs` rejects,
or a library is still missing afterwards) saves no document, leaves
`currentIndex` and the slide list (the same units in the same order)
unchanged, and leaves every slide unit marked active. -/
theorem export_libs_failure {Img : Type} (net : Network) (h2c : Stage → Option Img)
    (s : Session) (hfail : libsFail net s = true) :
    (exportPdf net h2c s).2 = none ∧
    (exportPdf net h2c s).1.currentIndex = s.currentIndex ∧
    (exportPdf net h2c s).1.slides.map (·.ref) = s.slides.map (·.ref) ∧
    (exportPdf net h2c s).1.slides.map (·.sec) = s.slides.map (·.sec) ∧
    ∀ u ∈ (exportPdf net h2c s).1.slides, u.isActive = true := by
  obtain ⟨h1, h2, _, _⟩ := exportPdf_state net h2c s
  refine ⟨?_, h2, ?_, ?_, ?_⟩
  · unfold libsFail at hfail
    unfold exportPdf
    simp only [hfail, if_true]
  · rw [h1, activateAll_ref]
  · rw [h1]; simp [activateAll]
  · intro u hu
    rw [h1] at hu
    simp only [activateAll, List.mem_map] at hu
    obtain ⟨v, _, rfl⟩ := hu
    rfl

/-- C6, witness: an export of the loaded two-slide deck with no network. -/
theorem export_libs_failure_witness :
    libsFail netDown twoLoaded = true ∧
    ((exportPdf netDown snap twoLoaded).2 = none ∧
    (exportPdf netDown snap twoLoaded).1.currentIndex = twoLoaded.currentIndex ∧
    (exportPdf netDown snap twoLoaded).1.slides.map (·.ref) = twoLoaded.slides.map (·.ref) ∧
    (exportPdf netDown snap twoLoaded).1.slides.map (·.sec) = twoLoaded.slides.map (·.sec) ∧
    ∀ u ∈ (exportPdf netDown snap twoLoaded).1.slides, u.isActive = true) :=
  ⟨by decide, export_libs_failure netDown snap twoLoaded (by decide)⟩

theorem exportLoop_pages {Img : Type} (h2c : Stage → Option Img) (l : List SlideEl) :
    ∀ (i : Nat) (stage st : Stage) (pdf pdf1 : Pdf Img), 0 < i →
      exportLoop h2c i l stage pdf = (st, some pdf1) →
      pdf1.pages.map (·.map some)
        = pdf.pages.map (·.map some) ++ l.map (fun u => [h2c ⟨some ⟨u.sec, true⟩⟩]) := by
  induction l with
  | nil =>
    intro i stage st pdf pdf1 _ h
    simp only [exportLoop, Prod.mk.injEq, Option.some.injEq] at h
    simp [h.2]
  | cons u rest ih =>
    intro i stage st pdf pdf1 hi h
    have hst : placeSlideOnStage stage u = ⟨some ⟨u.sec, true⟩⟩ := by simp [placeSlideOnStage]
    cases hc : h2c ⟨some ⟨u.sec, true⟩⟩ with
    | none => simp [exportLoop, hst, hc] at h
    | some img =>
      simp only [exportLoop, hst, hc, hi, if_true] at h
      rw [ih (i + 1) _ st _ pdf1 (Nat.succ_pos i) h]
      simp [Pdf.pages, Pdf.addPage, Pdf.addImage, hc]

theorem exportLoop_first {Img : Type} (h2c : Stage → Option Img) (l : List SlideEl)
    (hne : l ≠ []) (stage st : Stage) (pdf1 : Pdf Img)
    (h : exportLoop h2c 0 l stage Pdf.new = (st, some pdf1)) :
    pdf1.pages.map (·.map some) = l.map (fun u => [h2c ⟨some ⟨u.sec, true⟩⟩]) := by
  cases l with
  | nil => exact absurd rfl hne
  | cons u rest =>
    have hst : placeSlideOnStage stage u = ⟨some ⟨u.sec, true⟩⟩ := by simp [placeSlideOnStage]
    cases hc : h2c ⟨some ⟨u.sec, true⟩⟩ with
    | none => simp [exportLoop, hst, hc] at h
    | some img =>
      simp only [exportLoop, hst, hc, lt_self_iff_false, if_false] at h
      rw [exportLoop_pages h2c rest 1 _ st _ pdf1 Nat.one_pos h]
      simp [Pdf.pages, Pdf.new, Pdf.addImage, hc]

/-- C5, counterexample: a successful export of the loaded deck with no slides
saves a document of one (empty) page, while there are zero slide units. -/
theorem export_empty_deck_one_page :
    emptyLoaded.slides.length = 0 ∧
    (exportPdf netUp snap emptyLoaded).2.map (fun p => p.pages) = some [[]] ∧
    ¬ ((exportPdf netUp snap emptyLoaded).2.map (fun p => p.pages.length)
        = some emptyLoaded.slides.length) := by
  decide

/-- C5, amended: for every non-empty list of slide units, a successful export
saves a document with exactly one page per unit, in list order: page `k+1`
holds exactly the image captured from the stage holding the active copy of
unit `k`, the first image is drawn on the initial page, and the number of
pages is the number of units. -/
theorem export_one_page_per_unit {Img : Type} (net : Network) (h2c : Stage → Option Img)
    (s : Session) (hne : s.slides ≠ []) (hok : (exportPdf net h2c s).2.isSome = true) :
    ∃ pdf, (exportPdf net h2c s).2 = some pdf ∧
      pdf.pages.length = s.slides.length ∧
      pdf.pages.map (·.map some) = s.slides.map (fun u => [h2c ⟨some ⟨u.sec, true⟩⟩]) := by
  obtain ⟨pdf, hpdf⟩ := Option.isSome_iff_exists.mp hok
  have hs := (ensureLibs_slides net (exportPrepare s)).1
  have e1 : (exportPrepare s).slides = activateAll s.slides := rfl
  have hpages : pdf.pages.map (·.map some)
      = s.slides.map (fun u => [h2c ⟨some ⟨u.sec, true⟩⟩]) := by
    unfold exportPdf at hpdf
    dsimp only at hpdf
    split at hpdf
    · simp at hpdf
    · split at hpdf
      · simp at hpdf
      · next stage pdf1 hloop =>
        simp only [Option.some.injEq] at hpdf
        subst hpdf
        rw [hs, e1] at hloop
        have hne2 : activateAll s.slides ≠ [] := by
          intro h0
          have := congrArg List.length h0
          rw [activateAll_length] at this
          exact hne (List.length_eq_zero.mp this)
        rw [exportLoop_first h2c _ hne2 _ _ _ hloop]
        simp [activateAll]
  refine ⟨pdf, hpdf, ?_, hpages⟩
  have := congrArg List.length hpages
  simpa using this

/-- C5, witness: a successful export of the loaded two-slide deck. -/
theorem export_one_page_per_unit_witness :
    twoLoaded.slides ≠ [] ∧ (exportPdf netUp snap twoLoaded).2.isSome = true ∧
    ∃ pdf, (exportPdf netUp snap twoLoaded).2 = some pdf ∧
      pdf.pages.length = twoLoaded.slides.length ∧
      pdf.pages.map (·.map some)
        = twoLoaded.slides.map (fun u => [snap ⟨some ⟨u.sec, true⟩⟩]) :=
  ⟨by decide, by decide, export_one_page_per_unit netUp snap twoLoaded (by decide) (by decide)⟩

/-! ## Reachable states: proofs -/

theorem addActive_ref (t : Nat) (l : List SlideEl) :
    (addActive t l).map (·.ref) = l.map (·.ref) := by
  induction l with
  | nil => rfl
  | cons u rest ih =>
    simp only [addActive, List.map_cons, List.map_map] at ih ⊢
    refine congrArg₂ _ ?_ ih
    split <;> rfl

theorem indexOf_mem (l : List SlideEl) (t : Nat) (h : t ∈ l.map (·.ref)) :
    0 ≤ indexOf l t ∧ indexOf l t < l.length ∧
    ∃ u, (addActive t l)[(indexOf l t).toNat]? = some u ∧ u.isActive = true := by
  induction l with
  | nil => simp at h
  | cons v rest ih =>
    by_cases hv : v.ref = t
    · refine ⟨by simp [indexOf, hv], by simp [indexOf, hv], ?_⟩
      exact ⟨{ v with isActive := true }, by simp [indexOf, addActive, hv], rfl⟩
    · have hrest : t ∈ rest.map (·.ref) := by
        simp only [List.map_cons, List.mem_cons] at h
        rcases h with h | h
        · exact absurd h.symm hv
        · exact h
      obtain ⟨h0, h1, u, hu, hact⟩ := ih hrest
      have hneg : ¬ indexOf rest t < 0 := by omega
      have hidx : indexOf (v :: rest) t = indexOf rest t + 1 := by
        simp [indexOf, hv, hneg]
      have htn : (indexOf rest t + 1).toNat = (indexOf rest t).toNat + 1 := by omega
      refine ⟨by omega, by simp only [hidx, List.length_cons]; omega, u, ?_, hact⟩
      rw [hidx, htn]
      simpa [addActive] using hu

theorem WatchesCurrent.transfer {s t : Session} (h : WatchesCurrent s)
    (ho : t.observers = s.observers) (hi : t.io = s.io)
    (hr : t.slides.map (·.ref) = s.slides.map (·.ref)) : WatchesCurrent t := by
  intro k o hk
  rw [ho] at hk
  rw [hi, hr]
  exact h k o hk

theorem WatchesCurrent.mem {s : Session} (h : WatchesCurrent s) {o : List Nat}
    (ho : o ∈ s.observers) {t : Nat} (ht : t ∈ o) : t ∈ s.slides.map (·.ref) := by
  obtain ⟨k, hk⟩ := List.mem_iff_getElem?.mp ho
  obtain ⟨h1, h2⟩ := h k o hk
  by_cases hio : s.io = some k
  · rw [← h1 hio]; exact ht
  · rw [h2 hio] at ht; simp at ht

theorem goTo_frame (pg : Page) (s : Session) (i : Int) :
    (goTo pg s i).slides = s.slides ∧ (goTo pg s i).currentIndex = s.currentIndex ∧
    (goTo pg s i).io = s.io ∧ (goTo pg s i).observers = s.observers := by
  unfold goTo
  split
  · exact ⟨rfl, rfl, rfl, rfl⟩
  · split
    · exact ⟨rfl, rfl, rfl, rfl⟩
    · dsimp only
      split <;> exact ⟨rfl, rfl, rfl, rfl⟩

theorem disconnect_get (h : Nat) (observers : List (List Nat)) (k : Nat) (o : List Nat)
    (hk : (disconnect h observers)[k]? = some o) :
    (h = k ∧ o = []) ∨ (h ≠ k ∧ observers[k]? = some o) := by
  unfold disconnect at hk
  by_cases hkh : h = k
  · subst hkh
    left
    refine ⟨rfl, ?_⟩
    rw [List.getElem?_set] at hk
    simp only [if_true] at hk
    split at hk
    · exact (Option.some.inj hk).symm
    · simp at hk
  · right
    refine ⟨hkh, ?_⟩
    rw [List.getElem?_set] at hk
    simpa [hkh] using hk

theorem setupObserver_frame (pg : Page) (s : Session) (hdeck : pg.hasDeck = true) :
    (setupObserver pg s).slides = s.slides ∧
    (setupObserver pg s).currentIndex = s.currentIndex ∧
    ∃ obs1 : List (List Nat),
      (∀ k o, obs1[k]? = some o → o = [] ∨ (s.io ≠ some k ∧ s.observers[k]? = some o)) ∧
      (setupObserver pg s).observers = obs1 ++ [s.slides.map (·.ref)] ∧
      (setupObserver pg s).io = some obs1.length := by
  cases hio : s.io with
  | none =>
    refine ⟨by simp [setupObserver, hdeck], by simp [setupObserver, hdeck], s.observers, ?_,
      by simp [setupObserver, hdeck, hio], by simp [setupObserver, hdeck, hio]⟩
    intro k o hk
    exact Or.inr ⟨by simp, hk⟩
  | some h =>
    refine ⟨by simp [setupObserver, hdeck], by simp [setupObserver, hdeck],
      disconnect h s.observers, ?_,
      by simp [setupObserver, hdeck, hio], by simp [setupObserver, hdeck, hio]⟩
    intro k o hk
    rcases disconnect_get h s.observers k o hk with ⟨_, ho⟩ | ⟨hne, ho⟩
    · exact Or.inl ho
    · exact Or.inr ⟨fun heq => hne (Option.some.inj heq), ho⟩

theorem loadContent_inv (pg : Page) (res : Option Deck) (s : Session)
    (hw : WatchesCurrent s) (ha : ActiveAtIndex s) :
    WatchesCurrent (loadContent pg res s) ∧ ActiveAtIndex (loadContent pg res s) := by
  by_cases hdeck : pg.hasDeck = true
  · cases res with
    | none => simpa [loadContent, hdeck] using And.intro hw ha
    | some data =>
      have e : loadContent pg (some data) s = setupObserver pg (renderDeck pg data s) := by
        simp [loadContent, hdeck]
      rw [e]
      obtain ⟨o1, o2, obs1, hobs1, o3, o4⟩ := setupObserver_frame pg (renderDeck pg data s) hdeck
      obtain ⟨r1, r2, r3, r4⟩ := renderDeck_slides pg data s hdeck
      constructor
      · intro k o hk
        rw [o3] at hk
        rw [o4, o1]
        by_cases hlt : k < obs1.length
        · rw [List.getElem?_append_left hlt] at hk
          have hne : (some obs1.length : Option Nat) ≠ some k := by
            intro h; have := Option.some.inj h; omega
          refine ⟨fun h => absurd h hne, fun _ => ?_⟩
          rcases hobs1 k o hk with ho | ⟨hio, hold⟩
          · exact ho
          · rw [r3] at hio
            rw [r4] at hold
            exact (hw k o hold).2 hio
        · have hge : obs1.length ≤ k := by omega
          rw [List.getElem?_append_right hge] at hk
          have hk0 : k - obs1.length = 0 := by
            by_contra hne0
            have : 1 ≤ k - obs1.length := by omega
            simp [List.getElem?_eq_none, this] at hk
          rw [hk0] at hk
          have ho : o = (renderDeck pg data s).slides.map (·.ref) := by
            simpa using hk.symm
          have hkeq : k = obs1.length := by omega
          exact ⟨fun _ => ho, fun h => absurd (by rw [hkeq]) h⟩
      · intro hne
        rw [o1] at hne ⊢
        rw [o2, r2]
        have hlen : 0 < (renderDeck pg data s).slides.length := List.length_pos.mpr hne
        refine ⟨le_refl _, by omega, ?_⟩
        obtain ⟨u, hu⟩ : ∃ u, (renderDeck pg data s).slides[0]? = some u :=
          ⟨_, List.getElem?_eq_getElem hlen⟩
        refine ⟨u, by simpa using hu, ?_⟩
        rw [r1] at hu
        exact activateFirst_head _ u hu
  · simpa [loadContent, hdeck] using And.intro hw ha

theorem onEntry_inv (pg : Page) (s : Session) (e : Entry)
    (hw : WatchesCurrent s) (ha : ActiveAtIndex s)
    (he : e.target ∈ s.slides.map (·.ref)) :
    WatchesCurrent (onEntry pg s e) ∧ ActiveAtIndex (onEntry pg s e) ∧
    (onEntry pg s e).slides.map (·.ref) = s.slides.map (·.ref) := by
  unfold onEntry
  split
  · obtain ⟨h0, h1, u, hu, hact⟩ := indexOf_mem s.slides e.target he
    have hr : (addActive e.target s.slides).map (·.ref) = s.slides.map (·.ref) :=
      addActive_ref _ _
    refine ⟨?_, ?_, by simpa using hr⟩
    · exact hw.transfer (by simp) (by simp) (by simpa using hr)
    · intro _
      simp only [updateProgress_currentIndex, updateProgress_slides]
      have hl : (addActive e.target s.slides).length = s.slides.length := by
        simp [addActive]
      exact ⟨h0, by rw [hl]; omega, u, hu, hact⟩
  · exact ⟨hw, ha, rfl⟩

theorem onIntersect_inv (pg : Page) (entries : List Entry) :
    ∀ (s : Session), WatchesCurrent s → ActiveAtIndex s →
      (∀ e ∈ entries, e.target ∈ s.slides.map (·.ref)) →
      WatchesCurrent (onIntersect pg s entries) ∧ ActiveAtIndex (onIntersect pg s entries) := by
  induction entries with
  | nil => intro s hw ha _; exact ⟨hw, ha⟩
  | cons e rest ih =>
    intro s hw ha hall
    obtain ⟨hw1, ha1, hr⟩ := onEntry_inv pg s e hw ha (hall e (List.mem_cons_self e rest))
    have hrest : ∀ e1 ∈ rest, e1.target ∈ (onEntry pg s e).slides.map (·.ref) := by
      intro e1 he1
      rw [hr]
      exact hall e1 (List.mem_cons_of_mem e he1)
    simpa [onIntersect] using ih (onEntry pg s e) hw1 ha1 hrest

theorem exportPdf_inv {Img : Type} (net : Network) (h2c : Stage → Option Img) (s : Session)
    (hw : WatchesCurrent s) (ha : ActiveAtIndex s) :
    WatchesCurrent (exportPdf net h2c s).1 ∧ ActiveAtIndex (exportPdf net h2c s).1 := by
  obtain ⟨h1, h2, h3, h4⟩ := exportPdf_state net h2c s
  constructor
  · exact hw.transfer h4 h3 (by rw [h1, activateAll_ref])
  · intro hne
    rw [h1] at hne ⊢
    rw [h2]
    have hne0 : s.slides ≠ [] := by
      intro h0; rw [h0] at hne; exact hne rfl
    obtain ⟨a0, a1, u, hu, _⟩ := ha hne0
    rw [activateAll_length]
    exact ⟨a0, a1, _, activateAll_get _ _ u hu, rfl⟩

theorem goTo_inv (pg : Page) (s : Session) (i : Int)
    (hw : WatchesCurrent s) (ha : ActiveAtIndex s) :
    WatchesCurrent (goTo pg s i) ∧ ActiveAtIndex (goTo pg s i) := by
  obtain ⟨g1, g2, g3, g4⟩ := goTo_frame pg s i
  refine ⟨hw.transfer g4 g3 (by rw [g1]), fun hne => ?_⟩
  rw [g1] at hne ⊢
  rw [g2]
  exact ha hne

theorem reach_inv (pg : Page) (s : Session) (h : Reach pg s) :
    WatchesCurrent s ∧ ActiveAtIndex s := by
  induction h with
  | init =>
    exact ⟨fun k o hk => by simp [Session.init] at hk, fun hne => absurd rfl hne⟩
  | byLoad res _ ih => exact loadContent_inv pg res _ ih.1 ih.2
  | byGoTo i _ ih => exact goTo_inv pg _ i ih.1 ih.2
  | byNext _ ih => exact goTo_inv pg _ _ ih.1 ih.2
  | byPrev _ ih => exact goTo_inv pg _ _ ih.1 ih.2
  | byObserve o entries ho hall _ ih =>
    exact onIntersect_inv pg entries _ ih.1 ih.2 (fun e he => ih.1.mem ho (hall e he))
  | byExport net h2c _ ih => exact exportPdf_inv net h2c _ ih.1 ih.2

theorem indexOf_congr (l m : List SlideEl) (t : Nat)
    (h : l.map (·.ref) = m.map (·.ref)) : indexOf l t = indexOf m t := by
  induction l generalizing m with
  | nil =>
    cases m with
    | nil => rfl
    | cons v rest => simp at h
  | cons u rest ih =>
    cases m with
    | nil => simp at h
    | cons v rest2 =>
      simp only [List.map_cons, List.cons.injEq] at h
      simp only [indexOf, h.1, ih rest2 h.2]

theorem onEntry_ref (pg : Page) (s : Session) (e : Entry) :
    (onEntry pg s e).slides.map (·.ref) = s.slides.map (·.ref) := by
  unfold onEntry
  split
  · simpa using addActive_ref e.target s.slides
  · rfl

theorem onIntersect_index (pg : Page) (entries : List Entry) :
    ∀ (s : Session),
      (onIntersect pg s entries).currentIndex = s.currentIndex ∨
      ∃ e ∈ entries, e.isIntersecting = true ∧
        (onIntersect pg s entries).currentIndex = indexOf s.slides e.target := by
  induction entries with
  | nil => intro s; exact Or.inl rfl
  | cons e rest ih =>
    intro s
    have hfold : onIntersect pg s (e :: rest) = onIntersect pg (onEntry pg s e) rest := rfl
    rw [hfold]
    rcases ih (onEntry pg s e) with h | ⟨e1, he1, hint, hidx⟩
    · by_cases hi : e.isIntersecting = true
      · right
        refine ⟨e, List.mem_cons_self e rest, hi, ?_⟩
        rw [h]
        simp [onEntry, hi]
      · left
        rw [h]
        simp [onEntry, hi]
    · right
      refine ⟨e1, List.mem_cons_of_mem e he1, hint, ?_⟩
      rw [hidx]
      exact indexOf_congr _ _ _ (onEntry_ref pg s e)

theorem twoScrolled_reach : Reach fullPage twoScrolled := by
  refine Reach.byObserve [0, 1] [⟨1, true⟩] (by decide) ?_
    (Reach.byLoad (some twoDeck) Reach.init)
  intro e he
  simp only [List.mem_singleton] at he
  subst he
  decide

theorem twoReloaded_reach : Reach fullPage twoReloaded :=
  Reach.byLoad (some twoDeck) (Reach.byLoad (some twoDeck) Reach.init)

/-- C9, counterexample: after the two-slide deck is loaded and its second
slide comes into view, the state is reachable, `currentIndex` is 1, and both
units are marked active. -/
theorem reachable_two_active :
    Reach fullPage twoScrolled ∧ twoScrolled.slides ≠ [] ∧
    twoScrolled.currentIndex = 1 ∧ activeIndices twoScrolled.slides = [0, 1] :=
  ⟨twoScrolled_reach, by decide, by decide, by decide⟩

/-- C9, amended: in every state reachable from the start by loads,
`goTo`/`next`/`prev` calls, observer callbacks for watched units and export
runs, if the slide-unit list is non-empty then
`0 <= currentIndex <= length-1` and the unit at `currentIndex` is marked
active. -/
theorem reach_index_active (pg : Page) (s : Session) (h : Reach pg s) (hne : s.slides ≠ []) :
    0 ≤ s.currentIndex ∧ s.currentIndex ≤ (s.slides.length : Int) - 1 ∧
    ∃ u, s.slides[s.currentIndex.toNat]? = some u ∧ u.isActive = true :=
  (reach_inv pg s h).2 hne

/-- C9, witness: the amended invariant at the state after the second slide
came into view. -/
theorem reach_index_active_witness :
    Reach fullPage twoScrolled ∧ twoScrolled.slides ≠ [] ∧
    (0 ≤ twoScrolled.currentIndex ∧
      twoScrolled.currentIndex ≤ (twoScrolled.slides.length : Int) - 1 ∧
      ∃ u, twoScrolled.slides[twoScrolled.currentIndex.toNat]? = some u ∧ u.isActive = true) :=
  ⟨twoScrolled_reach, by decide,
    reach_index_active fullPage twoScrolled twoScrolled_reach (by decide)⟩

/-- C10: in every reachable state, whatever observer made so far hands a
batch of observations to the callback, every observation in the batch has a
target that is a member of the current slide-unit list, and after the batch
`currentIndex` is either unchanged or the position (not -1) of the member
that an intersecting observation of the batch names: an observation of a unit
removed by an earlier reload is never handled and never changes
`currentIndex`. This holds because each load disconnects the observer it
replaces: every observer other than the current one watches nothing, and the
current one watches exactly the current units. -/
theorem stale_never_delivered (pg : Page) (s : Session) (h : Reach pg s)
    (o : List Nat) (ho : o ∈ s.observers)
    (entries : List Entry) (hdel : ∀ e ∈ entries, e.target ∈ o) :
    (∀ e ∈ entries, e.target ∈ s.slides.map (·.ref) ∧ 0 ≤ indexOf s.slides e.target) ∧
    ((onIntersect pg s entries).currentIndex = s.currentIndex ∨
      ∃ e ∈ entries, e.isIntersecting = true ∧ e.target ∈ s.slides.map (·.ref) ∧
        (onIntersect pg s entries).currentIndex = indexOf s.slides e.target ∧
        0 ≤ (onIntersect pg s entries).currentIndex) ∧
    (∀ e ∈ entries, e.target ∉ s.slides.map (·.ref) →
      (onIntersect pg s entries).currentIndex = s.currentIndex) ∧
    (∀ k o1, s.observers[k]? = some o1 → s.io ≠ some k → o1 = []) ∧
    (∀ k o1, s.observers[k]? = some o1 → s.io = some k → o1 = s.slides.map (·.ref)) := by
  have hw := (reach_inv pg s h).1
  have hmem : ∀ e ∈ entries, e.target ∈ s.slides.map (·.ref) :=
    fun e he => hw.mem ho (hdel e he)
  refine ⟨fun e he => ⟨hmem e he, (indexOf_mem s.slides e.target (hmem e he)).1⟩,
    ?_, ?_, ?_, ?_⟩
  · rcases onIntersect_index pg entries s with hsame | ⟨e, he, hint, hidx⟩
    · exact Or.inl hsame
    · refine Or.inr ⟨e, he, hint, hmem e he, hidx, ?_⟩
      rw [hidx]
      exact (indexOf_mem s.slides e.target (hmem e he)).1
  · intro e he hstale
    exact absurd (hmem e he) hstale
  · intro k o1 hk hio
    exact (hw k o1 hk).2 hio
  · intro k o1 hk hio
    exact (hw k o1 hk).1 hio

/-- C10, witness: after a reload the observer of the first load is
disconnected and the new one watches the new units; it reports the second of
them. -/
theorem stale_never_delivered_witness :
    Reach fullPage twoReloaded ∧ twoReloaded.observers = [[], [2, 3]] ∧
    [2, 3] ∈ twoReloaded.observers ∧
    (∀ e ∈ [(⟨3, true⟩ : Entry)], e.target ∈ [2, 3]) ∧
    ((∀ e ∈ [(⟨3, true⟩ : Entry)],
        e.target ∈ twoReloaded.slides.map (·.ref) ∧ 0 ≤ indexOf twoReloaded.slides e.target) ∧
    ((onIntersect fullPage twoReloaded [⟨3, true⟩]).currentIndex = twoReloaded.currentIndex ∨
      ∃ e ∈ [(⟨3, true⟩ : Entry)], e.isIntersecting = true ∧
        e.target ∈ twoReloaded.slides.map (·.ref) ∧
        (onIntersect fullPage twoReloaded [⟨3, true⟩]).currentIndex
          = indexOf twoReloaded.slides e.target ∧
        0 ≤ (onIntersect fullPage twoReloaded [⟨3, true⟩]).currentIndex) ∧
    (∀ e ∈ [(⟨3, true⟩ : Entry)], e.target ∉ twoReloaded.slides.map (·.ref) →
      (onIntersect fullPage twoReloaded [⟨3, true⟩]).currentIndex = twoReloaded.currentIndex) ∧
    (∀ k o1, twoReloaded.observers[k]? = some o1 → twoReloaded.io ≠ some k → o1 = []) ∧
    (∀ k o1, twoReloaded.observers[k]? = some o1 → twoReloaded.io = some k →
      o1 = twoReloaded.slides.map (·.ref))) :=
  ⟨twoReloaded_reach, by decide, by decide, by decide,
    stale_never_delivered fullPage twoReloaded twoReloaded_reach [2, 3] (by decide)
      [⟨3, true⟩] (by decide)⟩

end FlowPitch
